import Mathlib

/-!
# GitHub trending monitor: the scrape and cache core, and the report builder

A shallow embedding of `services/githubService.js` (class `GitHubService`),
`services/markdownGenerator.js` (class `MarkdownGenerator`), `services/scheduler.js` (class
`Scheduler`) and the report route of `server.js`.

* JavaScript Numbers are modelled exactly: a non-negative Number is NaN, +Infinity or a
  finite IEEE-754 binary64 value, and every arithmetic step rounds to nearest, ties to even.
* The document handed to `parseTrendingProjects` is the node tree that `cheerio.load`
  builds from the markup; the selectors used by the source are functions on that tree.
* The service is a state record (`cache`, `lastFetch`); the clock readings (`Date.now()`)
  and the outcome of the HTTP request are explicit arguments of each call.
* The object `languageCount` is an association list with the key order of `Object.entries`;
  the file system is a record of the three calls the report store makes, each of which may
  throw.
* `services/scheduler.js` and the report route of `server.js` call the other modules
  through a record of their outcomes, so that every return, rejection and exception is
  covered.
-/

namespace GithubTrending

/-! ## JavaScript Numbers -/

/-- A non-negative JavaScript Number: NaN, +Infinity, or the finite double `num / 2 ^ exp`,
kept in lowest terms (`exp = 0` or `num` odd), so that equal values are equal terms. -/
inductive JSNumber where
  | nan
  | infinity
  | finite (num : Nat) (exp : Nat)
deriving DecidableEq

/-- Binary logarithm by halving, `fuel` bounding the number of halvings -/
def log2Fuel : Nat → Nat → Nat
  | 0, _ => 0
  | fuel + 1, n => if n < 2 then 0 else log2Fuel fuel (n / 2) + 1

/-- The integer `l` with `2 ^ l ≤ n < 2 ^ (l + 1)` for `n ≠ 0` -/
def floorLog2 (n : Nat) : Nat := log2Fuel n n

/-- The fraction `x / y` rounded to the nearest integer, ties to the even one -/
def roundHalfEven (x y : Nat) : Nat :=
  let q := x / y
  let r := x % y
  if 2 * r < y then q else if y < 2 * r then q + 1 else if q % 2 = 0 then q else q + 1

/-- The double `n / 2 ^ k` in lowest terms -/
def normalize : Nat → Nat → JSNumber
  | n, 0 => .finite n 0
  | n, k + 1 => if n % 2 = 0 then normalize (n / 2) k else .finite n (k + 1)

/-- The integer `e` with `2 ^ e ≤ a / b < 2 ^ (e + 1)`, for positive `a` and `b` -/
def binaryExponent (a b : Nat) : Int :=
  let l : Int := (floorLog2 a : Int) - (floorLog2 b : Int)
  if b * 2 ^ l.toNat ≤ a * 2 ^ (-l).toNat then l else l - 1

/-- The binary64 value nearest to the rational `a / b` (`b ≠ 0`): 53 significant bits, least
exponent `-1074` (subnormals), ties to even, and +Infinity from `2 ^ 1024` on. -/
def roundToDouble (a b : Nat) : JSNumber :=
  if a = 0 then .finite 0 0 else
  let p : Int := max (binaryExponent a b - 52) (-1074)
  let m := roundHalfEven (a * 2 ^ (-p).toNat) (b * 2 ^ p.toNat)
  if 0 ≤ p then
    if 1024 ≤ floorLog2 (m * 2 ^ p.toNat) then .infinity else .finite (m * 2 ^ p.toNat) 0
  else normalize m (-p).toNat

/-- The Number written as the integer literal `n` -/
def JSNumber.ofNat (n : Nat) : JSNumber := roundToDouble n 1

/-- The operator `*` on non-negative Numbers -/
def JSNumber.mul : JSNumber → JSNumber → JSNumber
  | .nan, _ => .nan
  | _, .nan => .nan
  | .infinity, .infinity => .infinity
  | .infinity, .finite n _ => if n = 0 then .nan else .infinity
  | .finite n _, .infinity => if n = 0 then .nan else .infinity
  | .finite n₁ k₁, .finite n₂ k₂ => roundToDouble (n₁ * n₂) (2 ^ (k₁ + k₂))

/-- The expression `x || 0` on Numbers: NaN and 0 are falsy -/
def JSNumber.orZero : JSNumber → JSNumber
  | .nan => .finite 0 0
  | x => x

/-- Value of a string of decimal digits -/
def decimalValue (ds : List Char) : Nat :=
  ds.foldl (fun acc c => 10 * acc + (c.toNat - 48)) 0

/-- The builtin `parseFloat` on strings over digits, `.` and `k` (the alphabet left by the
filter of `parseNumber`): the longest leading decimal literal, `digits [. digits]` or
`. digits`, rounded to a double; NaN when there is none. -/
def parseFloat (s : List Char) : JSNumber :=
  let intPart := s.takeWhile Char.isDigit
  let fracPart := match s.dropWhile Char.isDigit with
    | '.' :: t => t.takeWhile Char.isDigit
    | _ => []
  if intPart.isEmpty && fracPart.isEmpty then .nan
  else roundToDouble (decimalValue (intPart ++ fracPart)) (10 ^ fracPart.length)

/-- The builtin `parseInt` on strings over digits, `.` and `k`: the leading digits read as an
integer and rounded to a double; NaN when the string does not start with a digit. -/
def parseIntString (s : List Char) : JSNumber :=
  let ds := s.takeWhile Char.isDigit
  if ds.isEmpty then .nan else roundToDouble (decimalValue ds) 1

/-- Least `t` from `t0` on with `d ≤ n * 10 ^ t`, at most `fuel` steps -/
def negDecade : Nat → Nat → Nat → Nat → Nat
  | 0, _, _, t => t
  | fuel + 1, n, d, t => if d ≤ n * 10 ^ t then t else negDecade fuel n d (t + 1)

/-- Number of decimal digits of `n` minus one -/
def decadeFuel : Nat → Nat → Nat
  | 0, _ => 0
  | fuel + 1, n => if n < 10 then 0 else decadeFuel fuel (n / 10) + 1

/-- The integer `e` with `10 ^ e ≤ n / d < 10 ^ (e + 1)`, for positive `n` and `d` -/
def decimalExponent (n d : Nat) : Int :=
  if d ≤ n then (decadeFuel n (n / d) : Int) else - (negDecade 400 n d 0 : Int)

/-- First digit of the shortest decimal `s × 10 ^ j` that rounds back to the double
`n / 2 ^ k` (Number::toString picks the fewest digits, then the decimal nearest to the
value): for 1, 2, ... digits the two neighbours of the value on the grid of that many
digits are tried. -/
def leadingDigitFuel (n k : Nat) (e : Int) : Nat → Nat → Nat
  | 0, _ => (n * 10 ^ (-e).toNat) / (2 ^ k * 10 ^ e.toNat)
  | fuel + 1, digits =>
    let j : Int := e - digits + 1
    let num := n * 10 ^ (-j).toNat
    let den := 2 ^ k * 10 ^ j.toNat
    let s := num / den
    let back := fun (c : Nat) => roundToDouble (c * 10 ^ j.toNat) (10 ^ (-j).toNat)
    let lead := fun (c : Nat) => if c = 10 ^ digits then 1 else c / 10 ^ (digits - 1)
    let okLo := decide (back s = .finite n k)
    let okHi := decide (back (s + 1) = .finite n k)
    if okLo && okHi then
      (if 2 * num < (2 * s + 1) * den then lead s
       else if (2 * s + 1) * den < 2 * num then lead (s + 1)
       else if s % 2 = 0 then lead s else lead (s + 1))
    else if okLo then lead s
    else if okHi then lead (s + 1)
    else leadingDigitFuel n k e fuel (digits + 1)

/-- First digit printed by Number::toString for the positive double `n / 2 ^ k` -/
def leadingDigit (n k : Nat) : Nat :=
  leadingDigitFuel n k (decimalExponent n (2 ^ k)) 17 1

/-- Whether the double `n / 2 ^ k` lies below the double nearest to `10 ^ (-6)`, where
Number::toString switches to exponent form -/
def belowPositional (n k : Nat) : Bool :=
  match roundToDouble 1 (10 ^ 6) with
  | .finite a b => decide (n * 2 ^ b < a * 2 ^ k)
  | _ => false

/-- The builtin `parseInt` applied to a Number `x`, that is `parseInt(String(x))`.
`String(NaN)` and `String(Infinity)` start with a letter, so the result is NaN.  From the
double nearest `1e-6` up to `1e21` the Number is printed in positional form and the digits
before the point are the integer part of `x`; outside that range it is printed as
`d.ddde±nn` and `parseInt` reads the first digit only. -/
def parseIntNumber : JSNumber → JSNumber
  | .nan => .nan
  | .infinity => .nan
  | .finite n k =>
    if n = 0 then .finite 0 0
    else if 10 ^ 21 * 2 ^ k ≤ n || belowPositional n k then JSNumber.ofNat (leadingDigit n k)
    else JSNumber.ofNat (n / 2 ^ k)

/-! ## parseNumber -/

/-- The characters kept by `text.replace(/[^\d.k]/g, '')` -/
def keepChar (c : Char) : Bool := c.isDigit || c == '.' || c == 'k'

/-- Method `parseNumber(text)`; `none` is a `null` argument. -/
def parseNumber (text : Option String) : JSNumber :=
  match text with
  | none => .finite 0 0
  | some t =>
    if t.data.isEmpty then .finite 0 0 else
    let num := t.data.filter keepChar
    if num.contains 'k' then
      parseIntNumber ((parseFloat (num.erase 'k')).mul (JSNumber.ofNat 1000))
    else (parseIntString num).orZero

/-- The count that claim C8 promises for kept characters `intPart . fracPart k`: the decimal
value times 1000, truncated to an integer. -/
def truncatedThousands (intPart fracPart : List Char) : Nat :=
  decimalValue (intPart ++ fracPart) * 1000 / 10 ^ fracPart.length

/-! ## Strings -/

/-- White space and line terminators removed by `String.prototype.trim` -/
def isTrimChar (c : Char) : Bool :=
  let n := c.toNat
  n == 9 || n == 10 || n == 11 || n == 12 || n == 13 || n == 32 || n == 160 || n == 5760 ||
  (8192 ≤ n && n ≤ 8202) || n == 8232 || n == 8233 || n == 8239 || n == 8287 ||
  n == 12288 || n == 65279

/-- The method `trim()` of a string -/
def trim (s : String) : String :=
  String.mk ((s.data.dropWhile isTrimChar).reverse.dropWhile isTrimChar).reverse

/-- Whether `pat` occurs in `s` as a contiguous run of characters -/
def containsSubstr (pat : List Char) : List Char → Bool
  | [] => pat.isEmpty
  | c :: cs => pat.isPrefixOf (c :: cs) || containsSubstr pat cs

/-- The tokens of a `class` attribute whose white space has been turned into blanks -/
def classTokens (s : List Char) : List (List Char) :=
  (s.splitOn ' ').filter (fun t => !t.isEmpty)

/-! ## The document tree built by cheerio -/

/-- A node of the parsed document: a text node or an element with its attributes and
children, in document order. -/
inductive Node where
  | text (data : String)
  | element (name : String) (attribs : List (String × String)) (children : List Node)

/-- A parsed markup document: the children of the root -/
abbrev Document := List Node

mutual
/-- Text of a node: the data of all text nodes below it, concatenated in document order -/
def Node.textContent : Node → String
  | .text data => data
  | .element _ _ children => textContentList children
/-- Text of a sequence of nodes -/
def textContentList : List Node → String
  | [] => ""
  | c :: cs => c.textContent ++ textContentList cs
end

mutual
/-- A node followed by all nodes below it, in document order -/
def Node.subtree : Node → List Node
  | .text data => [.text data]
  | .element name attribs children => .element name attribs children :: subtreeList children
/-- All nodes of a sequence of trees, in document order -/
def subtreeList : List Node → List Node
  | [] => []
  | c :: cs => c.subtree ++ subtreeList cs
end

/-- Children of a node -/
def Node.children : Node → List Node
  | .text _ => []
  | .element _ _ children => children

/-- Method `attr(name)` on one element: the value of its first attribute of that name -/
def Node.attr (name : String) : Node → Option String
  | .text _ => none
  | .element _ attribs _ => (attribs.find? (fun a => a.1 == name)).map (fun a => a.2)

/-- Type selector, such as `p` -/
def Node.hasName (name : String) : Node → Bool
  | .text _ => false
  | .element n _ _ => n == name

/-- Class selector, such as `.Box-row`: the name is one of the white-space separated tokens
of the `class` attribute -/
def Node.hasClass (cls : String) (n : Node) : Bool :=
  match n.attr "class" with
  | none => false
  | some v => (classTokens (v.data.map (fun c => if isTrimChar c then ' ' else c))).contains cls.data

/-- Attribute selector `[name="value"]` -/
def Node.attrEquals (name value : String) (n : Node) : Bool :=
  n.attr name == some value

/-- Attribute selector `[name*="value"]`, which never matches an empty `value` -/
def Node.attrContains (name value : String) (n : Node) : Bool :=
  match n.attr name with
  | none => false
  | some v => !value.data.isEmpty && containsSubstr value.data v.data

/-- The call `$(selector)` for a selector of one simple test: every node of the document
passing the test, in document order. -/
def select (test : Node → Bool) (html : Document) : List Node :=
  (subtreeList html).filter test

/-- The call `$article.find(selector)` for a selector of one simple test: the matching nodes
strictly below `article`, in document order. -/
def Node.find (test : Node → Bool) (article : Node) : List Node :=
  (subtreeList article.children).filter test

mutual
/-- The nodes of a tree matching `inner` that lie below an element matching `outer`; the
flag tells whether such an element has been passed already. -/
def Node.findBelow (outer inner : Node → Bool) (passed : Bool) : Node → List Node
  | .text data => if passed && inner (.text data) then [.text data] else []
  | .element name attribs children =>
    (if passed && inner (.element name attribs children)
      then [.element name attribs children] else []) ++
    findBelowList outer inner (passed || outer (.element name attribs children)) children
/-- The same over a sequence of trees -/
def findBelowList (outer inner : Node → Bool) (passed : Bool) : List Node → List Node
  | [] => []
  | c :: cs => c.findBelow outer inner passed ++ findBelowList outer inner passed cs
end

/-- The call `$article.find('outer inner')` with a descendant combinator (cheerio 1.x): the
nodes strictly below `article` that match `inner` and lie below a node matching `outer`,
where that node is `article` itself or a node below it. -/
def Node.findDescendant (outer inner : Node → Bool) (article : Node) : List Node :=
  findBelowList outer inner (outer article) article.children

/-- Method `text()` of a selection: the text of each selected node, concatenated -/
def selectionText (sel : List Node) : String :=
  textContentList sel

/-- Method `attr(name)` of a selection: the attribute of its first node -/
def selectionAttr (name : String) (sel : List Node) : Option String :=
  match sel with
  | [] => none
  | n :: _ => n.attr name

/-! ## Project records and parseTrendingProjects -/

/-- One scraped project, the object literal built by `parseTrendingProjects` -/
structure Project where
  name : String
  url : String
  description : String
  stars : JSNumber
  forks : JSNumber
  language : String
  updatedAt : String
  rank : Nat
deriving DecidableEq

/-- String concatenation `prefix + value` where `value` may be `undefined` -/
def concatUndefined (pre : String) (value : Option String) : String :=
  match value with
  | none => pre ++ "undefined"
  | some v => pre ++ v

/-- Method `getRelativeTime(element)` -/
def getRelativeTime (element : List Node) : String :=
  if element.length > 0 then
    match selectionAttr "datetime" element with
    | some v => if v.data.isEmpty then trim (selectionText element) else v
    | none => trim (selectionText element)
  else "今天"

/-- The selection `$article.find('h2 a')` -/
def headingLinks (article : Node) : List Node :=
  article.findDescendant (Node.hasName "h2") (Node.hasName "a")

/-- The object literal of lines 86 to 95 for the container `article` at position `index` -/
def buildProject (index : Nat) (article : Node) : Project :=
  let title := headingLinks article
  let description := article.find (Node.hasName "p")
  let stars := article.find (fun n => n.hasName "a" && n.attrContains "href" "/stargazers")
  let forks := article.find (fun n => n.hasName "a" && n.attrContains "href" "/forks")
  let language := article.find (Node.attrEquals "itemprop" "programmingLanguage")
  { name := trim (selectionText title)
    url := concatUndefined "https://github.com" (selectionAttr "href" title)
    description := if description.length > 0 then trim (selectionText description) else ""
    stars := parseNumber (some (selectionText stars))
    forks := parseNumber (some (selectionText forks))
    language := if language.length > 0 then trim (selectionText language) else ""
    updatedAt := getRelativeTime (article.find (Node.hasName "relative-time"))
    rank := index + 1 }

/-- The selection `$('.Box-row')`: the containers, in document order -/
def boxRows (html : Document) : List Node :=
  select (Node.hasClass "Box-row") html

/-- One turn of the `each` callback: push a record when the container has a heading link -/
def eachRow (projects : List Project) (entry : Nat × Node) : List Project :=
  if (headingLinks entry.2).length > 0 then projects ++ [buildProject entry.1 entry.2]
  else projects

/-- Method `parseTrendingProjects(html)`, on the tree that `cheerio.load(html)` builds -/
def parseTrendingProjects (html : Document) : List Project :=
  (boxRows html).enum.foldl eachRow []

/-- Method `getMockData()` -/
def getMockData : List Project :=
  [ { name := "microsoft/vscode", url := "https://github.com/microsoft/vscode",
      description := "Visual Studio Code - 开源代码编辑器",
      stars := JSNumber.ofNat 150000, forks := JSNumber.ofNat 25000,
      language := "TypeScript", updatedAt := "今天", rank := 1 },
    { name := "facebook/react", url := "https://github.com/facebook/react",
      description := "用于构建用户界面的JavaScript库",
      stars := JSNumber.ofNat 200000, forks := JSNumber.ofNat 42000,
      language := "JavaScript", updatedAt := "今天", rank := 2 },
    { name := "tensorflow/tensorflow", url := "https://github.com/tensorflow/tensorflow",
      description := "开源机器学习框架",
      stars := JSNumber.ofNat 180000, forks := JSNumber.ofNat 70000,
      language := "C++", updatedAt := "今天", rank := 3 },
    { name := "torvalds/linux", url := "https://github.com/torvalds/linux",
      description := "Linux内核源代码",
      stars := JSNumber.ofNat 160000, forks := JSNumber.ofNat 50000,
      language := "C", updatedAt := "今天", rank := 4 },
    { name := "apple/swift", url := "https://github.com/apple/swift",
      description := "Swift编程语言",
      stars := JSNumber.ofNat 65000, forks := JSNumber.ofNat 10000,
      language := "C++", updatedAt := "今天", rank := 5 } ]

/-! ## The service and its cache slot -/

/-- The mutable fields of `GitHubService`; `none` is `null`. -/
structure GitHubService where
  cache : Option (List Project)
  lastFetch : Option Int
deriving DecidableEq

/-- The state set up by the constructor -/
def GitHubService.new : GitHubService := { cache := none, lastFetch := none }

/-- Field `cacheTimeout`, one hour in milliseconds -/
def cacheTimeout : Int := 60 * 60 * 1000

/-- Outcome of `axios.get`: a response with status 200 to 299 whose body parses to `data`,
or a rejection (network error, timeout, any other status) with the error message. -/
inductive FetchOutcome where
  | response (data : Document)
  | failure (message : String)

/-- The awaited request, raising on a rejection -/
def axiosGet : FetchOutcome → Except String Document
  | .response data => .ok data
  | .failure message => .error message

/-- Truthiness of `this.lastFetch`: `null` and the Number 0 are falsy -/
def truthyTime : Option Int → Bool
  | none => false
  | some t => t != 0

/-- The guard of line 15 at clock reading `now`: the payload to serve from the cache -/
def cacheLookup (self : GitHubService) (now : Int) : Option (List Project) :=
  match self.cache, self.lastFetch with
  | some cache, some t => if truthyTime (some t) && decide (now - t < cacheTimeout) then some cache else none
  | _, _ => none

/-- What one call of `getTrendingProjects` yields: the settled promise (`ok` resolved,
`error` rejected), the state afterwards and the number of `axios.get` calls made. -/
structure CallResult where
  result : Except String (List Project)
  state : GitHubService
  requests : Nat

/-- Method `getTrendingProjects()`: `now` is `Date.now()` at the guard, `fetch` the outcome
of the request if one is made, `later` is `Date.now()` when the cache is updated. -/
def getTrendingProjects (self : GitHubService) (now : Int) (fetch : FetchOutcome)
    (later : Int) : CallResult :=
  match cacheLookup self now with
  | some cache => { result := .ok cache, state := self, requests := 0 }
  | none =>
    let attempt : Except String (List Project × GitHubService) := do
      let data ← axiosGet fetch
      let projects := parseTrendingProjects data
      pure (projects, { cache := some projects, lastFetch := some later })
    match attempt with
    | .ok (projects, updated) => { result := .ok projects, state := updated, requests := 1 }
    | .error _ =>
      match self.cache with
      | some cache => { result := .ok cache, state := self, requests := 1 }
      | none => { result := .ok getMockData, state := self, requests := 1 }

/-- Method `clearCache()` -/
def clearCache (_self : GitHubService) : GitHubService :=
  { cache := none, lastFetch := none }

/-- The object returned by `getCacheStatus` -/
structure CacheStatus where
  hasCache : Bool
  lastFetch : Option Int
  cacheAge : Int
  isExpired : Bool
deriving DecidableEq

/-- Method `getCacheStatus()`, with the state afterwards; `now₁` and `now₂` are the two
readings of `Date.now()`, for `cacheAge` and for `isExpired`. -/
def getCacheStatus (self : GitHubService) (now₁ now₂ : Int) : CacheStatus × GitHubService :=
  ({ hasCache := self.cache.isSome
     lastFetch := self.lastFetch
     cacheAge := match self.lastFetch with
       | some t => if truthyTime (some t) then now₁ - t else 0
       | none => 0
     isExpired := match self.lastFetch with
       | some t => if truthyTime (some t) then decide (now₂ - t > cacheTimeout) else true
       | none => true }, self)

/-- States of the service reachable from the constructor by calls of its methods, with any
clock readings and any request outcomes. -/
inductive Reachable : GitHubService → Prop where
  | init : Reachable GitHubService.new
  | getTrendingProjects (s : GitHubService) (now : Int) (fetch : FetchOutcome) (later : Int) :
      Reachable s → Reachable (getTrendingProjects s now fetch later).state
  | clearCache (s : GitHubService) : Reachable s → Reachable (clearCache s)
  | getCacheStatus (s : GitHubService) (now₁ now₂ : Int) :
      Reachable s → Reachable (getCacheStatus s now₁ now₂).2

/-! ## Number formatting -/

/-- The operator `+` on non-negative Numbers -/
def JSNumber.add : JSNumber → JSNumber → JSNumber
  | .nan, _ => .nan
  | _, .nan => .nan
  | .infinity, _ => .infinity
  | _, .infinity => .infinity
  | .finite n₁ k₁, .finite n₂ k₂ => roundToDouble (n₁ * 2 ^ k₂ + n₂ * 2 ^ k₁) (2 ^ (k₁ + k₂))

/-- The operator `/` on non-negative Numbers -/
def JSNumber.div : JSNumber → JSNumber → JSNumber
  | .nan, _ => .nan
  | _, .nan => .nan
  | .infinity, .infinity => .nan
  | .infinity, .finite _ _ => .infinity
  | .finite _ _, .infinity => .finite 0 0
  | .finite n₁ k₁, .finite n₂ k₂ =>
    if n₂ = 0 then (if n₁ = 0 then .nan else .infinity)
    else roundToDouble (n₁ * 2 ^ k₂) (n₂ * 2 ^ k₁)

/-- The operator `>=` on non-negative Numbers -/
def JSNumber.ge : JSNumber → JSNumber → Bool
  | .nan, _ => false
  | _, .nan => false
  | .infinity, _ => true
  | .finite _ _, .infinity => false
  | .finite n₁ k₁, .finite n₂ k₂ => decide (n₂ * 2 ^ k₁ ≤ n₁ * 2 ^ k₂)

/-- The shortest decimal that rounds back to the positive double `n / 2 ^ k`, as its digits
`s` (an integer without trailing zeros) and the position `pt` of the decimal point, the
value printed being `0.s × 10 ^ pt`.  For 1, 2, ... digits the two neighbours of the value
on the grid of that many digits are tried, the nearer one first. -/
def shortestDecimalFuel (n k : Nat) (e : Int) : Nat → Nat → Nat × Int
  | 0, _ => ((n * 10 ^ (16 - e).toNat) / (2 ^ k * 10 ^ (e - 16).toNat), e + 1)
  | fuel + 1, digits =>
    let j : Int := e - digits + 1
    let num := n * 10 ^ (-j).toNat
    let den := 2 ^ k * 10 ^ j.toNat
    let s := num / den
    let back := fun (c : Nat) => roundToDouble (c * 10 ^ j.toNat) (10 ^ (-j).toNat)
    let pick := fun (c : Nat) => if c = 10 ^ digits then ((1 : Nat), e + 2) else (c, e + 1)
    let okLo := decide (back s = .finite n k)
    let okHi := decide (back (s + 1) = .finite n k)
    if okLo && okHi then
      (if 2 * num < (2 * s + 1) * den then pick s
       else if (2 * s + 1) * den < 2 * num then pick (s + 1)
       else if s % 2 = 0 then pick s else pick (s + 1))
    else if okLo then pick s
    else if okHi then pick (s + 1)
    else shortestDecimalFuel n k e fuel (digits + 1)

/-- Digits and point position of the shortest decimal of the positive double `n / 2 ^ k` -/
def shortestDecimal (n k : Nat) : Nat × Int :=
  shortestDecimalFuel n k (decimalExponent n (2 ^ k)) 17 1

/-- Number::toString in radix 10 -/
def numberToString : JSNumber → String
  | .nan => "NaN"
  | .infinity => "Infinity"
  | .finite n k =>
    if n = 0 then "0" else
    let sp := shortestDecimal n k
    let ds := (Nat.repr sp.1).data
    let len : Int := ds.length
    let pt := sp.2
    if len ≤ pt ∧ pt ≤ 21 then String.mk (ds ++ List.replicate (pt - len).toNat '0')
    else if 0 < pt ∧ pt ≤ 21 then String.mk (ds.take pt.toNat ++ '.' :: ds.drop pt.toNat)
    else if -6 < pt ∧ pt ≤ 0 then String.mk ('0' :: '.' :: List.replicate (-pt).toNat '0' ++ ds)
    else
      let e := pt - 1
      let sign := if 0 ≤ e then "+" else "-"
      let mantissa := match ds with
        | [] => []
        | [d] => [d]
        | d :: rest => d :: '.' :: rest
      String.mk mantissa ++ "e" ++ sign ++ Nat.repr e.natAbs

/-- The call `x.toFixed(1)`: below `1e21` the integer `t` nearest to `10 x` (the larger one
on a tie) printed with a point before its last digit, otherwise `String(x)`. -/
def toFixed1 : JSNumber → String
  | .nan => "NaN"
  | .infinity => "Infinity"
  | .finite n k =>
    if 10 ^ 21 * 2 ^ k ≤ n then numberToString (.finite n k)
    else
      let t := (20 * n + 2 ^ k) / (2 * 2 ^ k)
      Nat.repr (t / 10) ++ "." ++ Nat.repr (t % 10)

/-- Method `formatNumber(num)` -/
def formatNumber (num : JSNumber) : String :=
  if num.ge (JSNumber.ofNat 1000000) then
    toFixed1 (num.div (JSNumber.ofNat 1000000)) ++ "M"
  else if num.ge (JSNumber.ofNat 1000) then
    toFixed1 (num.div (JSNumber.ofNat 1000)) ++ "K"
  else numberToString num

/-- Tenths written with one decimal digit: `t` tenths is `t / 10`, a point, and `t % 10` -/
def tenthsString (t : Nat) : String :=
  Nat.repr (t / 10) ++ "." ++ Nat.repr (t % 10)

/-- The fraction `n / d` in tenths, rounded half-up in exact arithmetic: the integer part of
`10 n / d + 1 / 2` -/
def halfUpTenths (n d : Nat) : Nat :=
  (20 * n + d) / (2 * d)

/-- The fraction `n / d` rounded half-up to exactly one decimal digit, as the specification
words it -/
def halfUpOneDecimal (n d : Nat) : String :=
  tenthsString (halfUpTenths n d)

/-! ## The report builder -/

/-- A value stored in the object `languageCount`: a count, or the string that arises when a
name inherited from `Object.prototype` is read before it has been written. -/
inductive CountValue where
  | number (n : Nat)
  | text (s : String)
deriving DecidableEq

/-- The function-valued properties of `Object.prototype` -/
def inheritedFunctions : List String :=
  ["constructor", "__defineGetter__", "__defineSetter__", "hasOwnProperty",
   "__lookupGetter__", "__lookupSetter__", "isPrototypeOf", "propertyIsEnumerable",
   "toString", "valueOf", "toLocaleString"]

/-- The assignment `obj[key] = value` on the own properties of an object, kept in creation
order: an existing property is overwritten in place, a new one is added last. -/
def setProperty : List (String × CountValue) → String → CountValue → List (String × CountValue)
  | [], key, value => [(key, value)]
  | (k, v) :: rest, key, value =>
    if k = key then (k, value) :: rest else (k, v) :: setProperty rest key value

/-- The name in the source text of the function found under an inherited key: the key
itself, except that `constructor` holds the function `Object` -/
def inheritedFunctionName (key : String) : String :=
  if key = "constructor" then "Object" else key

/-- The statement `languageCount[language] = (languageCount[language] || 0) + 1` of line 101.
A name that is not an own property is looked up on `Object.prototype`: an inherited function
is truthy and `+ 1` appends `1` to its source text; `__proto__` reads as an object and a
string assigned to it is ignored. -/
def countLanguage (languageCount : List (String × CountValue)) (language : String) :
    List (String × CountValue) :=
  if language = "__proto__" then languageCount
  else
    let next : CountValue :=
      match languageCount.lookup language with
      | some (.number n) => .number (n + 1)
      | some (.text s) => .text (s ++ "1")
      | none =>
        if language ∈ inheritedFunctions then
          .text ("function " ++ inheritedFunctionName language ++ "() \x7b [native code] \x7d1")
        else .number 1
    setProperty languageCount language next

/-- Whether a property name is an array index: the canonical decimal form of an integer
below `2 ^ 32 - 1` -/
def isArrayIndex (key : String) : Bool :=
  !key.data.isEmpty && key.data.all Char.isDigit &&
  (key.data.head? != some '0' || key.data.length == 1) &&
  decide (decimalValue key.data < 2 ^ 32 - 1)

/-- The call `Object.entries(obj)`: array-index names first, in ascending numeric order, then
the other names in creation order. -/
def ownEntries (obj : List (String × CountValue)) : List (String × CountValue) :=
  (obj.filter (fun e => isArrayIndex e.1)).insertionSort
      (fun a b => decimalValue a.1.data ≤ decimalValue b.1.data) ++
    obj.filter (fun e => !isArrayIndex e.1)

/-- Whether the comparator `([,a], [,b]) => b - a` lets `x` stay before `y`: the difference is
not positive.  With a string count the difference is NaN, which `sort` takes as 0. -/
def staysBefore (x y : String × CountValue) : Bool :=
  match x.2, y.2 with
  | .number a, .number b => decide (b ≤ a)
  | _, _ => true

/-- The comparator `([,a], [,b]) => b - a` as `sort` reads it on the entries `x` and `y`:
the difference of the counts, and 0 when it is NaN (a string count). -/
def compareEntries (x y : String × CountValue) : Int :=
  match x.2, y.2 with
  | .number a, .number b => (b : Int) - (a : Int)
  | _, _ => 0

/-- Whether a count is a Number -/
def CountValue.isNumber : CountValue → Bool
  | .number _ => true
  | .text _ => false

/-- How many further elements continue the run that ends in `prev`: a strictly descending
run goes on while the next element compares below the one before, any other run while it
does not (loop of `CountAndMakeRun` in V8). -/
def continueRun {α : Type} (compare : α → α → Int) (descending : Bool) : α → List α → Nat
  | _, [] => 0
  | prev, current :: rest =>
    if descending = decide (compare current prev < 0) then
      continueRun compare descending current rest + 1
    else 0

/-- The length of the run at the beginning of an array (`CountAndMakeRun` in V8), and
whether it is strictly descending, in which case it gets reversed. -/
def countRun {α : Type} (compare : α → α → Int) : List α → Nat × Bool
  | [] => (0, false)
  | [_] => (1, false)
  | first :: second :: rest =>
    let descending := decide (compare second first < 0)
    (continueRun compare descending second rest + 2, descending)

/-- The place of `pivot` in the sorted beginning of an array, by bisection between `left`
and `right`: to the left of the middle element when `pivot` compares below it, to the right
of it otherwise (inner loop of `BinaryInsertionSort` in V8). -/
def bisect {α : Type} (compare : α → α → Int) (pivot : α) (sorted : List α) :
    Nat → Nat → Nat → Nat
  | 0, left, _ => left
  | fuel + 1, left, right =>
    if left < right then
      let mid := left + (right - left) / 2
      match sorted.get? mid with
      | some middle =>
        if compare pivot middle < 0 then bisect compare pivot sorted fuel left mid
        else bisect compare pivot sorted fuel (mid + 1) right
      | none => left
    else left

/-- The outer loop of `BinaryInsertionSort` in V8: each element of `pending` in turn is put
at its place in the sorted beginning. -/
def binaryInsertionSort {α : Type} (compare : α → α → Int) : List α → List α → List α
  | sorted, [] => sorted
  | sorted, pivot :: pending =>
    let left := bisect compare pivot sorted (sorted.length + 1) 0 sorted.length
    binaryInsertionSort compare (sorted.take left ++ pivot :: sorted.drop left) pending

/-- The order in which V8 (the engine of Node.js) leaves an array of fewer than 64 elements
after `sort(comparefn)`: the run at the beginning is found, reversed if it descends, and
the other elements are inserted by bisection.  Longer arrays are also merged by runs, which
is not modelled. -/
def engineSort {α : Type} (compare : α → α → Int) (array : List α) : List α :=
  let run := countRun compare array
  let first := if run.2 then (array.take run.1).reverse else array.take run.1
  binaryInsertionSort compare first (array.drop run.1)

/-- Method `getLanguageStats(projects)`.  `Array.prototype.sort` is stable, which fixes its
result when all counts are Numbers; with a string count the comparator yields NaN, it is
not consistent, and ECMAScript leaves the order to the engine, here V8. -/
def getLanguageStats (projects : List Project) : List (String × CountValue) :=
  let languageCount := projects.foldl
    (fun acc project =>
      if project.language.data.isEmpty then acc else countLanguage acc project.language) []
  let entries := ownEntries languageCount
  let sorted :=
    if entries.all (fun e => e.2.isNumber) then
      entries.insertionSort (fun x y => staysBefore x y = true)
    else engineSort compareEntries entries
  sorted.take 5

/-- A count inside a template literal -/
def CountValue.toString : CountValue → String
  | .number n => Nat.repr n
  | .text s => s

/-- The call `strings.join(', ')` -/
def joinComma : List String → String
  | [] => ""
  | [s] => s
  | s :: rest => s ++ ", " ++ joinComma rest

/-- Method `formatLanguageStats(languageStats)` -/
def formatLanguageStats (languageStats : List (String × CountValue)) : String :=
  if languageStats.length = 0 then "无"
  else joinComma (languageStats.map (fun e => e.1 ++ "(" ++ e.2.toString ++ ")"))

/-- Method `generateSummary(projects)`; `generatedAt` is the text of
`new Date().toLocaleString('zh-CN')` at the call. -/
def generateSummary (projects : List Project) (generatedAt : String) : String :=
  let totalProjects := projects.length
  let totalStars := projects.foldl (fun sum project => sum.add project.stars) (.finite 0 0)
  let totalForks := projects.foldl (fun sum project => sum.add project.forks) (.finite 0 0)
  let languageStats := getLanguageStats projects
  "## 📊 摘要\n\n- **项目总数**: " ++ Nat.repr totalProjects ++
  "\n- **总星数**: " ++ formatNumber totalStars ++
  "\n- **总Fork数**: " ++ formatNumber totalForks ++
  "\n- **主要语言**: " ++ formatLanguageStats languageStats ++
  "\n\n> 报告生成时间: " ++ generatedAt

/-- The text appended by one turn of the `forEach` callback of `generateProjectList` -/
def appendProject (content : String) (entry : Nat × Project) : String :=
  let index := entry.1
  let project := entry.2
  let content := content ++ ("### " ++ Nat.repr (index + 1) ++ ". " ++ project.name ++ "\n\n")
  let content :=
    if project.description.data.isEmpty then content
    else content ++ ("**描述**: " ++ project.description ++ "\n\n")
  let content := content ++ ("**链接**: [" ++ project.name ++ "](" ++ project.url ++ ")\n\n")
  let content := content ++ "**统计**:\n"
  let content := content ++ ("- ⭐ 星数: " ++ formatNumber project.stars ++ "\n")
  let content := content ++ ("- 🍴 Fork数: " ++ formatNumber project.forks ++ "\n")
  let content :=
    if project.language.data.isEmpty then content
    else content ++ ("- 💻 语言: " ++ project.language ++ "\n")
  let content :=
    if project.updatedAt.data.isEmpty then content
    else content ++ ("- 🕐 更新时间: " ++ project.updatedAt ++ "\n")
  content ++ "\n---\n\n"

/-- Method `generateProjectList(projects)` -/
def generateProjectList (projects : List Project) : String :=
  projects.enum.foldl appendProject "## 🚀 趋势项目列表\n\n"

/-- The calendar fields of a valid `Date` in local time: `getFullYear()`, `getMonth()`
(0 for January) and `getDate()`. -/
structure CalendarDate where
  fullYear : Int
  month : Nat
  date : Nat
deriving DecidableEq

/-- An integer Number inside a template literal -/
def intToString (i : Int) : String :=
  if i < 0 then "-" ++ Nat.repr i.natAbs else Nat.repr i.toNat

/-- The UTF-16 code units of a string -/
def codeUnits (s : String) : List Nat :=
  s.data.flatMap (fun c =>
    if c.toNat < 65536 then [c.toNat]
    else [55296 + (c.toNat - 65536) / 1024, 56320 + (c.toNat - 65536) % 1024])

/-- The call `s.padStart(targetLength, fill)` with a fill of one character -/
def padStart (s : String) (targetLength : Nat) (fill : Char) : String :=
  String.mk (List.replicate (targetLength - (codeUnits s).length) fill) ++ s

/-- Method `formatDate(date)` -/
def formatDate (date : CalendarDate) : String :=
  let year := intToString date.fullYear
  let month := padStart (Nat.repr (date.month + 1)) 2 '0'
  let day := padStart (Nat.repr date.date) 2 '0'
  year ++ "-" ++ month ++ "-" ++ day

/-- The file name of line 19 -/
def reportFileName (date : CalendarDate) : String :=
  "trending-" ++ formatDate date ++ ".md"

/-- Whether a name has the form `trending-YYYY-MM-DD.md` with decimal digits -/
def isReportName (name : String) : Bool :=
  match name.data with
  | 't' :: 'r' :: 'e' :: 'n' :: 'd' :: 'i' :: 'n' :: 'g' :: '-' ::
    y₁ :: y₂ :: y₃ :: y₄ :: '-' :: m₁ :: m₂ :: '-' :: d₁ :: d₂ :: '.' :: 'm' :: 'd' :: [] =>
    [y₁, y₂, y₃, y₄, m₁, m₂, d₁, d₂].all Char.isDigit
  | _ => false

/-! ## The report store -/

/-- The loop of `normalizeString` in Node's `path` module: `.` and empty segments are
dropped, `..` removes the segment before it, or is kept when there is none to remove and
the path is relative (`allowAboveRoot`).  The segments kept so far are in reverse order. -/
def normalizeSegments (allowAboveRoot : Bool) : List (List Char) → List (List Char) →
    List (List Char)
  | [], kept => kept.reverse
  | seg :: rest, kept =>
    if seg.isEmpty || seg == ['.'] then normalizeSegments allowAboveRoot rest kept
    else if seg == ['.', '.'] then
      match kept with
      | top :: below =>
        if top == ['.', '.'] then normalizeSegments allowAboveRoot rest (seg :: kept)
        else normalizeSegments allowAboveRoot rest below
      | [] =>
        if allowAboveRoot then normalizeSegments allowAboveRoot rest [seg]
        else normalizeSegments allowAboveRoot rest []
    else normalizeSegments allowAboveRoot rest (seg :: kept)

/-- The call `path.normalize(p)` on POSIX -/
def pathNormalize (path : String) : String :=
  if path.data.isEmpty then "." else
  let isAbsolute := path.data.head? == some '/'
  let trailingSeparator := path.data.getLast? == some '/'
  let body := (normalizeSegments (!isAbsolute) (path.data.splitOn '/') []).intersperse ['/']
  let text := body.flatten
  if text.isEmpty then
    if isAbsolute then "/" else if trailingSeparator then "./" else "."
  else
    let text := if trailingSeparator then text ++ ['/'] else text
    String.mk (if isAbsolute then '/' :: text else text)

/-- The call `path.join(a, b)` on POSIX: the non-empty arguments joined by `/`, normalized -/
def pathJoin (a b : String) : String :=
  if a.data.isEmpty && b.data.isEmpty then "."
  else if a.data.isEmpty then pathNormalize b
  else if b.data.isEmpty then pathNormalize a
  else pathNormalize (a ++ "/" ++ b)

/-- Lexicographic order on code-unit sequences, a proper beginning coming first -/
def unitsLe : List Nat → List Nat → Bool
  | [], _ => true
  | _ :: _, [] => false
  | a :: as, b :: bs => decide (a < b) || (a == b && unitsLe as bs)

/-- The order in which `sort()` without a comparator leaves the string `a` before `b` -/
def jsStringLe (a b : String) : Bool :=
  unitsLe (codeUnits a) (codeUnits b)

/-- The fields of `fs.Stats` used by the report list, times in milliseconds -/
structure Stats where
  birthtime : Int
  mtime : Int
  size : Nat
deriving DecidableEq

/-- One entry of the report list -/
structure Report where
  fileName : String
  filePath : String
  createdAt : Int
  modifiedAt : Int
  size : Nat
deriving DecidableEq

/-- The file system as seen through `fs`: each call either returns or throws, `error`
carrying the message. -/
structure FileSystem where
  readdirSync : String → Except String (List String)
  statSync : String → Except String Stats
  unlinkSync : String → Except String Unit

/-- The `map` callback of `getReportList` over the sorted names; the first `statSync` that
throws ends it. -/
def describeFiles (outputDir : String) (fs : FileSystem) : List String →
    Except String (List Report)
  | [] => .ok []
  | file :: rest =>
    match fs.statSync (pathJoin outputDir file) with
    | .error e => .error e
    | .ok stats =>
      match describeFiles outputDir fs rest with
      | .error e => .error e
      | .ok reports =>
        .ok ({ fileName := file, filePath := pathJoin outputDir file,
               createdAt := stats.birthtime, modifiedAt := stats.mtime,
               size := stats.size } :: reports)

/-- The names kept and ordered by lines 172 to 175: those ending in `.md`, sorted by code
units and reversed -/
def listedNames (entries : List String) : List String :=
  ((entries.filter (fun file => ".md".data.isSuffixOf file.data)).insertionSort
    (fun a b => jsStringLe a b = true)).reverse

/-- Method `getReportList()`, for the directory `outputDir`; `ok` is a normal return -/
def getReportList (outputDir : String) (fs : FileSystem) : Except String (List Report) :=
  let attempt : Except String (List Report) := do
    let entries ← fs.readdirSync outputDir
    describeFiles outputDir fs (listedNames entries)
  match attempt with
  | .ok reports => .ok reports
  | .error _ => .ok []

/-- The `forEach` of lines 217 to 220: the paths unlinked, and the exception that ended the
loop if one was thrown. -/
def unlinkEach (fs : FileSystem) : List Report → List String × Except String Unit
  | [] => ([], .ok ())
  | report :: rest =>
    match fs.unlinkSync report.filePath with
    | .error e => ([], .error e)
    | .ok _ => (report.filePath :: (unlinkEach fs rest).1, (unlinkEach fs rest).2)

/-- What a call of `cleanupOldReports` does: how it returns and the paths it unlinked, in
order. -/
structure CleanupResult where
  result : Except String Unit
  unlinked : List String

/-- Method `cleanupOldReports(keepCount)` for a non-negative integer `keepCount` -/
def cleanupOldReports (outputDir : String) (fs : FileSystem) (keepCount : Nat) :
    CleanupResult :=
  match getReportList outputDir fs with
  | .error _ => { result := .ok (), unlinked := [] }
  | .ok reports =>
    if reports.length > keepCount then
      { result := .ok (), unlinked := (unlinkEach fs (reports.drop keepCount)).1 }
    else { result := .ok (), unlinked := [] }

/-! ## Writing and reading reports -/

/-- A `Date` as the report builder reads it: its calendar fields in local time, and the
text that `toLocaleDateString('zh-CN', ...)` gives for it with the options of
`formatDateDisplay`. -/
structure DateValue where
  calendar : CalendarDate
  display : String

/-- Method `formatDateDisplay(date)` -/
def formatDateDisplay (date : DateValue) : String :=
  date.display

/-- Method `generateFooter(date)`; `generatedAt` is the text of
`new Date().toLocaleString('zh-CN')` at the call. -/
def generateFooter (date : DateValue) (generatedAt : String) : String :=
  "---\n\n## 📝 说明\n\n本报告由 GitHub 趋势项目监控器自动生成。\n\n" ++
  "- **数据来源**: [GitHub Trending](https://github.com/trending)\n" ++
  "- **生成时间**: " ++ generatedAt ++
  "\n- **报告日期**: " ++ formatDateDisplay date ++
  "\n\n> 💡 **提示**: 此报告展示了当前最热门的GitHub项目，按趋势排序。\n\n---\n\n" ++
  "*Powered by GitHub Trending Monitor*"

/-- Method `buildMarkdownContent(projects, date)`; `summaryAt` and `footerAt` are the texts
of the two `new Date().toLocaleString('zh-CN')` calls. -/
def buildMarkdownContent (projects : List Project) (date : DateValue)
    (summaryAt footerAt : String) : String :=
  let title := "# GitHub 趋势项目报告 - " ++ formatDateDisplay date
  let summary := generateSummary projects summaryAt
  let projectList := generateProjectList projects
  let footer := generateFooter date footerAt
  String.intercalate "\n\n" [title, summary, projectList, footer]

/-- Method `generateTrendingReport(projects, date)` for the directory `outputDir`.  The call
`fs.writeFileSync(filePath, markdown, 'utf8')` either returns or throws an error with the
given message; `ok` is the returned path and `error` the message of the error that reaches
the caller.  The `catch` block writes its label to the console and throws the error it
caught. -/
def generateTrendingReport (outputDir : String)
    (writeFileSync : String → String → Except String Unit) (projects : List Project)
    (date : DateValue) (summaryAt footerAt : String) : Except String String :=
  let fileName := "trending-" ++ formatDate date.calendar ++ ".md"
  let filePath := pathJoin outputDir fileName
  let markdown := buildMarkdownContent projects date summaryAt footerAt
  match writeFileSync filePath markdown with
  | .ok _ => .ok filePath
  | .error error => .error error

/-- The calls of `fs` that `readReport` makes: `existsSync` never throws, `readFileSync`
returns the content or throws. -/
structure ReportFiles where
  existsSync : String → Bool
  readFileSync : String → Except String String

/-- Method `readReport(fileName)` for the directory `outputDir`; `error` carries the
message of the error thrown again by the `catch` block. -/
def readReport (outputDir : String) (fs : ReportFiles) (fileName : String) :
    Except String String :=
  let filePath := pathJoin outputDir fileName
  if !fs.existsSync filePath then .error "报告文件不存在"
  else fs.readFileSync filePath

/-- What an Express handler sends: `res.send(content)` or `res.status(500).json(...)` -/
inductive Response where
  | send (status : Nat) (content : String)
  | json (status : Nat) (error message : String)
deriving DecidableEq

/-- The handler of `GET /api/report/:fileName` in `server.js`; `fileName` is
`req.params.fileName`. -/
def reportHandler (outputDir : String) (fs : ReportFiles) (fileName : String) : Response :=
  match readReport outputDir fs fileName with
  | .ok content => .send 200 content
  | .error message => .json 500 "读取报告失败" message

/-- Whether `path` names something below the directory `dir` -/
def insideDirectory (dir path : String) : Bool :=
  (dir ++ "/").data.isPrefixOf path.data

/-! ## The scheduler -/

/-- The mutable field of `Scheduler` -/
structure Scheduler where
  isRunning : Bool
deriving DecidableEq

/-- The state set up by the constructor -/
def Scheduler.new : Scheduler := { isRunning := false }

/-- The modules that `generateDailyReport` calls, each as what its call yields:
the settled promise of `githubService.getTrendingProjects()` (`error` when it rejects), and
the two methods of `markdownGenerator` (`error` when they throw). -/
structure Collaborators where
  getTrendingProjects : Except String (List Project)
  generateTrendingReport : List Project → Except String String
  cleanupOldReports : Nat → Except String Unit

/-- A call made on a collaborator, with its arguments -/
inductive CollaboratorCall where
  | getTrendingProjects
  | generateTrendingReport (projects : List Project)
  | cleanupOldReports (keepCount : Nat)
deriving DecidableEq

/-- The `try` block of `generateDailyReport` (lines 43 to 55): the calls it makes, in order,
and how it ends, `error` being a thrown exception. -/
def dailyReportBody (deps : Collaborators) : List CollaboratorCall × Except String Unit :=
  match deps.getTrendingProjects with
  | .error e => ([.getTrendingProjects], .error e)
  | .ok projects =>
    if projects.length > 0 then
      match deps.generateTrendingReport projects with
      | .error e => ([.getTrendingProjects, .generateTrendingReport projects], .error e)
      | .ok _ =>
        match deps.cleanupOldReports 7 with
        | .error e =>
          ([.getTrendingProjects, .generateTrendingReport projects, .cleanupOldReports 7],
            .error e)
        | .ok _ =>
          ([.getTrendingProjects, .generateTrendingReport projects, .cleanupOldReports 7],
            .ok ())
    else ([.getTrendingProjects], .ok ())

/-- What one call of `generateDailyReport` yields: the settled promise, the state
afterwards and the calls made on the collaborators. -/
structure DailyRun where
  result : Except String Unit
  state : Scheduler
  calls : List CollaboratorCall

/-- The state of the scheduler while a call of `generateDailyReport` waits for
`getTrendingProjects`: a skipped call has returned, a run has set the flag (line 40). -/
def stateAtAwait (self : Scheduler) : Scheduler :=
  if self.isRunning then self else { isRunning := true }

/-- Method `generateDailyReport()`: skipped when the flag is set; otherwise the flag is set,
the `try` block runs, an exception is caught and logged, and `finally` clears the flag. -/
def generateDailyReport (self : Scheduler) (deps : Collaborators) : DailyRun :=
  if self.isRunning then { result := .ok (), state := self, calls := [] }
  else
    let running : Scheduler := { isRunning := true }
    let body := dailyReportBody deps
    let caught : Except String Unit :=
      match body.2 with
      | .ok _ => .ok ()
      | .error _ => .ok ()
    { result := caught, state := { running with isRunning := false }, calls := body.1 }

/-- The collaborators as `scheduler.js` requires them: the service in state `github` with
its clock readings and request outcome, and the report generator on the directory
`outputDir` with its file system calls, date and clock texts. -/
def requiredModules (github : GitHubService) (now : Int) (fetch : FetchOutcome) (later : Int)
    (outputDir : String) (fs : FileSystem)
    (writeFileSync : String → String → Except String Unit) (date : DateValue)
    (summaryAt footerAt : String) : Collaborators :=
  { getTrendingProjects := (getTrendingProjects github now fetch later).result
    generateTrendingReport := fun projects =>
      generateTrendingReport outputDir writeFileSync projects date summaryAt footerAt
    cleanupOldReports := fun keepCount => (cleanupOldReports outputDir fs keepCount).result }

/-! ## Sample records and directories -/

/-- A record with the given language and counts, the other fields left empty -/
def sampleProject (language : String) (stars forks : Nat) : Project :=
  { name := "test/repo", url := "https://github.com/test/repo", description := "",
    stars := JSNumber.ofNat stars, forks := JSNumber.ofNat forks, language := language,
    updatedAt := "", rank := 1 }

/-- The records of the repository test `应该生成正确的摘要统计` -/
def summaryTestProjects : List Project :=
  [sampleProject "JavaScript" 1000 100, sampleProject "JavaScript" 2000 200,
   sampleProject "TypeScript" 1500 150]

/-- A directory with the given entries in which `statSync` always succeeds and `unlinkSync`
throws on the paths in `locked` -/
def sampleFileSystem (entries : List String) (locked : List String) : FileSystem :=
  { readdirSync := fun _ => .ok entries
    statSync := fun _ => .ok { birthtime := 1705276800000, mtime := 1705363200000, size := 1024 }
    unlinkSync := fun path => if path ∈ locked then .error "EACCES: permission denied" else .ok () }

/-- The listing of a report directory holding `README.md`, `notes.txt` and one report -/
def sampleListing : List Report :=
  [ { fileName := "trending-2024-01-15.md", filePath := "/app/reports/trending-2024-01-15.md",
      createdAt := 1705276800000, modifiedAt := 1705363200000, size := 1024 },
    { fileName := "README.md", filePath := "/app/reports/README.md",
      createdAt := 1705276800000, modifiedAt := 1705363200000, size := 1024 } ]

/-- The record of the repository test `应该处理缺少描述的项目`, with its rank set to 7 -/
def bareProject : Project :=
  { name := "test/repo", url := "https://github.com/test/repo", description := "",
    stars := JSNumber.ofNat 1000, forks := JSNumber.ofNat 100, language := "",
    updatedAt := "", rank := 7 }

/-- Calendar order of two dates: the year, then the month, then the day of the month -/
def CalendarDate.before (a b : CalendarDate) : Prop :=
  a.fullYear < b.fullYear ∨ (a.fullYear = b.fullYear ∧
    (a.month < b.month ∨ (a.month = b.month ∧ a.date < b.date)))

/-- A date of the calendar with a four-digit year: month 0 to 11, day 1 to 31 -/
def CalendarDate.fourDigitYear (a : CalendarDate) : Prop :=
  1000 ≤ a.fullYear ∧ a.fullYear ≤ 9999 ∧ a.month < 12 ∧ 1 ≤ a.date ∧ a.date ≤ 31

/-- The non-empty languages carried by the records, in the order of the records -/
def carriedLanguages (projects : List Project) : List String :=
  (projects.map Project.language).filter (fun language => !language.data.isEmpty)

/-- A language name that behaves as a plain key of the object `languageCount`: not an array
index and not the name of a property inherited from `Object.prototype` -/
def ordinaryKey (language : String) : Bool :=
  !isArrayIndex language && language != "__proto__" && !inheritedFunctions.contains language

/-- Files next to the report directory `/app/reports`: only `/app/.env` exists -/
def envFiles : ReportFiles :=
  { existsSync := fun path => path == "/app/.env"
    readFileSync := fun path =>
      if path = "/app/.env" then .ok "PORT=3000"
      else .error "ENOENT: no such file or directory" }

/-- The date of the repository test `应该包含正确的Markdown格式` -/
def sampleDate : DateValue :=
  { calendar := { fullYear := 2024, month := 0, date := 15 }, display := "2024年1月15日星期一" }

/-- The modules of a first run of the day: a fresh service whose request returns the page
`data`, and a report directory in which every file system call succeeds -/
def firstRunModules (data : Document) : Collaborators :=
  requiredModules GitHubService.new 0 (.response data) 1 "/app/reports"
    (sampleFileSystem [] []) (fun _ _ => .ok ()) sampleDate "2024/1/15 08:30:00"
    "2024/1/15 08:30:00"

/-! ## Sample documents -/

/-- A page with two containers, the first of which has no heading link:
`<div class="Box-row"><p>sponsored</p></div>` followed by
`<div class="Box-row"><h2><a href="/user/repo">user/repo</a></h2></div>` -/
def skippedRowPage : Document :=
  [ .element "div" [("class", "Box-row")] [.element "p" [] [.text "sponsored"]],
    .element "div" [("class", "Box-row")]
      [.element "h2" [] [.element "a" [("href", "/user/repo")] [.text "user/repo"]]] ]

/-- A page whose only container has a heading link without text and without `href`:
`<div class="Box-row"><h2><a> </a></h2></div>` -/
def blankLinkPage : Document :=
  [ .element "div" [("class", "Box-row")] [.element "h2" [] [.element "a" [] [.text " "]]] ]

/-- The page of the test `解析失败时应该返回空数组`: `<div>No trending projects</div>` -/
def noRowPage : Document :=
  [ .element "div" [] [.text "No trending projects"] ]

/-- The first container of the test `应该正确解析项目信息`, as a one-container page -/
def testPage : Document :=
  [ .element "div" [("class", "Box-row")]
      [ .element "h2" [] [.element "a" [("href", "/user/repo1")] [.text "user/repo1"]],
        .element "p" [] [.text "Description 1"],
        .element "a" [("href", "/user/repo1/stargazers")] [.text "1.2k"],
        .element "a" [("href", "/user/repo1/forks")] [.text "345"],
        .element "span" [("itemprop", "programmingLanguage")] [.text "TypeScript"],
        .element "relative-time" [("datetime", "2024-01-01")] [.text "today"] ] ]

/-- A page with three containers: a `div` with a heading link, a `div` without one, and an
`h2` that is itself the container of its link:
`<div class="Box-row"><h2><a href="/user/repo1">user/repo1</a></h2></div>`,
`<div class="Box-row"><p>sponsored</p></div>` and
`<h2 class="Box-row"><a href="/o/r">o/r</a></h2>` -/
def headingRowPage : Document :=
  [ .element "div" [("class", "Box-row")]
      [.element "h2" [] [.element "a" [("href", "/user/repo1")] [.text "user/repo1"]]],
    .element "div" [("class", "Box-row")] [.element "p" [] [.text "sponsored"]],
    .element "h2" [("class", "Box-row")] [.element "a" [("href", "/o/r")] [.text "o/r"]] ]

/-! ## The cache guard (claims C1 to C4) -/

/-- C1, as stated, fails when the payload was fetched at clock reading 0: `lastFetch = 0` is
falsy in the guard of line 15. A first call from the fresh service stores its fetch at
reading 0; a second call at reading 1000, well inside the hour, makes a second request and
overwrites the slot instead of returning the stored payload. -/
theorem cache_hit_fails_at_time_zero :
    (getTrendingProjects GitHubService.new 0 (.response testPage) 0).state
      = { cache := some (parseTrendingProjects testPage), lastFetch := some 0 } ∧
    (1000 : Int) - 0 < cacheTimeout ∧
    (getTrendingProjects (getTrendingProjects GitHubService.new 0 (.response testPage) 0).state
      1000 (.response noRowPage) 1001).requests = 1 ∧
    (getTrendingProjects (getTrendingProjects GitHubService.new 0 (.response testPage) 0).state
      1000 (.response noRowPage) 1001).state = { cache := some [], lastFetch := some 1001 } ∧
    parseTrendingProjects testPage ≠ [] := by
  decide

/-- C1 (amended): when the slot holds a payload fetched at a clock reading `t ≠ 0` and
`now - t < cacheTimeout`, `getTrendingProjects` resolves to exactly the stored payload,
makes no request and leaves `cache` and `lastFetch` unchanged; hence a call that fetched
successfully at reading `t` followed by a call inside the hour makes one request in all and
both resolve to the same data. -/
theorem cache_hit_within_ttl (payload : List Project) (t now later : Int)
    (fetch : FetchOutcome) (ht : t ≠ 0) (hnow : now - t < cacheTimeout) :
    (getTrendingProjects { cache := some payload, lastFetch := some t } now fetch later).result
      = .ok payload ∧
    (getTrendingProjects { cache := some payload, lastFetch := some t } now fetch later).requests
      = 0 ∧
    (getTrendingProjects { cache := some payload, lastFetch := some t } now fetch later).state
      = { cache := some payload, lastFetch := some t } ∧
    ∀ (s₀ : GitHubService) (now₀ : Int) (data : Document), cacheLookup s₀ now₀ = none →
      (getTrendingProjects s₀ now₀ (.response data) t).requests +
        (getTrendingProjects (getTrendingProjects s₀ now₀ (.response data) t).state
          now fetch later).requests = 1 ∧
      (getTrendingProjects (getTrendingProjects s₀ now₀ (.response data) t).state
          now fetch later).result = (getTrendingProjects s₀ now₀ (.response data) t).result := by
  have hit : ∀ p : List Project,
      cacheLookup { cache := some p, lastFetch := some t } now = some p := by
    intro p
    simp [cacheLookup, truthyTime, ht, hnow]
  refine ⟨?_, ?_, ?_, ?_⟩
  · simp [getTrendingProjects, hit]
  · simp [getTrendingProjects, hit]
  · simp [getTrendingProjects, hit]
  · intro s₀ now₀ data hmiss
    have first : getTrendingProjects s₀ now₀ (.response data) t =
        { result := .ok (parseTrendingProjects data),
          state := { cache := some (parseTrendingProjects data), lastFetch := some t },
          requests := 1 } := by
      simp [getTrendingProjects, hmiss, axiosGet]
    rw [first]
    simp [getTrendingProjects, hit]

/-- Witness of C1 (amended): the static records fetched at reading 5, asked again at 10. -/
theorem cache_hit_within_ttl_witness :
    (getTrendingProjects { cache := some getMockData, lastFetch := some 5 } 10
      (.failure "offline") 11).result = .ok getMockData ∧
    (getTrendingProjects { cache := some getMockData, lastFetch := some 5 } 10
      (.failure "offline") 11).requests = 0 :=
  ⟨(cache_hit_within_ttl getMockData 5 10 11 (.failure "offline") (by decide) (by decide)).1,
   (cache_hit_within_ttl getMockData 5 10 11 (.failure "offline") (by decide) (by decide)).2.1⟩

/-- C2: when the slot is empty, or `now - lastFetch ≥ cacheTimeout`, and the request
succeeds with document `data`, `getTrendingProjects` resolves to
`parseTrendingProjects data`; afterwards `cache` is that sequence and `lastFetch` the clock
reading taken at the update, whatever the slot held before. -/
theorem fetch_success_overwrites (s : GitHubService) (now later : Int) (data : Document)
    (hmiss : s.cache = none ∨ s.lastFetch = none ∨
      ∃ t, s.lastFetch = some t ∧ cacheTimeout ≤ now - t) :
    (getTrendingProjects s now (.response data) later).result
      = .ok (parseTrendingProjects data) ∧
    (getTrendingProjects s now (.response data) later).state
      = { cache := some (parseTrendingProjects data), lastFetch := some later } ∧
    (getTrendingProjects s now (.response data) later).requests = 1 := by
  have hlook : cacheLookup s now = none := by
    obtain ⟨cache, lastFetch⟩ := s
    rcases hmiss with h | h | ⟨t, h, hle⟩
    · simp only at h
      subst h
      rfl
    · simp only at h
      subst h
      cases cache <;> rfl
    · simp only at h
      subst h
      cases cache with
      | none => rfl
      | some c =>
        have : ¬ (now - t < cacheTimeout) := not_lt.mpr hle
        simp [cacheLookup, this]
  simp [getTrendingProjects, hlook, axiosGet]

/-- Witness of C2: an expired slot and an empty document; the slot is overwritten by the
empty sequence. -/
theorem fetch_success_overwrites_witness :
    (getTrendingProjects { cache := some getMockData, lastFetch := some 1 } 3600001
      (.response []) 3600002).state
      = { cache := some (parseTrendingProjects []), lastFetch := some 3600002 } :=
  (fetch_success_overwrites { cache := some getMockData, lastFetch := some 1 } 3600001 3600002 []
    (Or.inr (Or.inr ⟨1, rfl, by decide⟩))).2.1

/-- C3: when the guard does not serve the cache and the request fails,
`getTrendingProjects` still resolves (it does not reject), leaves `cache` and `lastFetch`
unchanged, and yields the cached payload if there is one, expired or not, and otherwise the
static sequence, which has 5 records and starts with `microsoft/vscode`. -/
theorem fetch_failure_falls_back (s : GitHubService) (now later : Int) (message : String)
    (hmiss : cacheLookup s now = none) :
    (getTrendingProjects s now (.failure message) later).result
      = .ok (match s.cache with
             | some cache => cache
             | none => getMockData) ∧
    (getTrendingProjects s now (.failure message) later).state = s ∧
    (getTrendingProjects s now (.failure message) later).requests = 1 ∧
    getMockData.length = 5 ∧
    getMockData.head?.map Project.name = some "microsoft/vscode" := by
  refine ⟨?_, ?_, ?_, rfl, rfl⟩
  · cases hc : s.cache <;> simp [getTrendingProjects, hmiss, axiosGet, hc]
  · cases hc : s.cache <;> simp [getTrendingProjects, hmiss, axiosGet, hc]
  · cases hc : s.cache <;> simp [getTrendingProjects, hmiss, axiosGet, hc]

/-- Witness of C3: a failed request on an expired slot returns the stale payload. -/
theorem fetch_failure_falls_back_witness :
    (getTrendingProjects { cache := some [], lastFetch := some 1 } 3600001
      (.failure "timeout of 30000ms exceeded") 3600002).result = .ok [] ∧
    (getTrendingProjects { cache := some [], lastFetch := some 1 } 3600001
      (.failure "timeout of 30000ms exceeded") 3600002).state
      = { cache := some [], lastFetch := some 1 } :=
  ⟨(fetch_failure_falls_back { cache := some [], lastFetch := some 1 } 3600001 3600002
      "timeout of 30000ms exceeded" (by decide)).1,
   (fetch_failure_falls_back { cache := some [], lastFetch := some 1 } 3600001 3600002
      "timeout of 30000ms exceeded" (by decide)).2.1⟩

/-- The state after `getTrendingProjects` is the state before or a freshly filled slot -/
theorem getTrendingProjects_state (s : GitHubService) (now later : Int) (fetch : FetchOutcome) :
    (getTrendingProjects s now fetch later).state = s ∨
    ∃ projects, (getTrendingProjects s now fetch later).state
      = { cache := some projects, lastFetch := some later } := by
  unfold getTrendingProjects
  cases cacheLookup s now with
  | some c => exact Or.inl rfl
  | none =>
    cases fetch with
    | response data => exact Or.inr ⟨parseTrendingProjects data, rfl⟩
    | failure m => cases hc : s.cache <;> simp [axiosGet, hc]

/-- C4: in every state reachable from the constructor by calls of `getTrendingProjects`
(any request outcome, any clock readings), `clearCache` and `getCacheStatus`, `cache` is
non-null exactly when `lastFetch` is non-null; `clearCache` sets both to null and
`getCacheStatus` changes neither. -/
theorem slot_invariant (s : GitHubService) (h : Reachable s) :
    (s.cache.isSome ↔ s.lastFetch.isSome) ∧
    clearCache s = { cache := none, lastFetch := none } ∧
    ∀ now₁ now₂ : Int, (getCacheStatus s now₁ now₂).2 = s := by
  refine ⟨?_, rfl, fun _ _ => rfl⟩
  induction h with
  | init => simp [GitHubService.new]
  | getTrendingProjects s now fetch later _ ih =>
    rcases getTrendingProjects_state s now later fetch with h | ⟨p, h⟩
    · rw [h]; exact ih
    · rw [h]; simp
  | clearCache s _ _ => simp [clearCache]
  | getCacheStatus s n₁ n₂ _ ih => exact ih

/-- Witness of C4: the state after one successful fetch at clock reading 7. -/
theorem slot_invariant_witness :
    ((getTrendingProjects GitHubService.new 5 (.response []) 7).state.cache.isSome ↔
      (getTrendingProjects GitHubService.new 5 (.response []) 7).state.lastFetch.isSome) ∧
    clearCache (getTrendingProjects GitHubService.new 5 (.response []) 7).state
      = { cache := none, lastFetch := none } :=
  ⟨(slot_invariant _ (Reachable.getTrendingProjects GitHubService.new 5 (.response []) 7
      Reachable.init)).1,
   (slot_invariant _ (Reachable.getTrendingProjects GitHubService.new 5 (.response []) 7
      Reachable.init)).2.1⟩

/-! ## The extractor (claims C5 to C7) -/

/-- The `each` loop appends, to what was pushed before, one record per container with a
heading link -/
theorem foldl_eachRow (rows : List (Nat × Node)) (acc : List Project) :
    rows.foldl eachRow acc = acc ++
      (rows.filter (fun e => decide ((headingLinks e.2).length > 0))).map
        (fun e => buildProject e.1 e.2) := by
  induction rows generalizing acc with
  | nil => simp
  | cons e rows ih =>
    rw [List.foldl_cons, ih]
    by_cases h : (headingLinks e.2).length > 0
    · simp [eachRow, h, List.filter_cons]
    · simp [eachRow, h, List.filter_cons]

/-- The records are the containers with a heading link, each built at its position -/
theorem parseTrendingProjects_eq (html : Document) :
    parseTrendingProjects html =
      ((boxRows html).enum.filter (fun e => decide ((headingLinks e.2).length > 0))).map
        (fun e => buildProject e.1 e.2) := by
  simp [parseTrendingProjects, foldl_eachRow]

/-- Position `i` of the entries kept by a filter on the elements of an enumerated list:
the entry sits at its index in the list, and `i + 1` kept elements come up to it. -/
theorem filter_enumFrom_position {α : Type} (p : α → Bool) (l : List α) (k i j : Nat) (x : α)
    (h : ((l.enumFrom k).filter (fun e => p e.2))[i]? = some (j, x)) :
    k ≤ j ∧ l[j - k]? = some x ∧ p x = true ∧ (l.take (j - k + 1)).countP p = i + 1 := by
  induction l generalizing k i with
  | nil => simp at h
  | cons a l ih =>
    rw [List.enumFrom_cons] at h
    by_cases hp : p a = true
    · rw [List.filter_cons_of_pos (by simpa using hp)] at h
      cases i with
      | zero =>
        simp at h
        obtain ⟨rfl, rfl⟩ := h
        simp [hp]
      | succ i =>
        simp at h
        obtain ⟨h1, h2, h3, h4⟩ := ih (k + 1) i h
        have e : j - k = (j - (k + 1)) + 1 := by omega
        refine ⟨by omega, ?_, h3, ?_⟩
        · rw [e]; simpa using h2
        · rw [e, List.take_succ_cons, List.countP_cons_of_pos _ _ hp, h4]
    · rw [List.filter_cons_of_neg (by simpa using hp)] at h
      obtain ⟨h1, h2, h3, h4⟩ := ih (k + 1) i h
      have e : j - k = (j - (k + 1)) + 1 := by omega
      refine ⟨by omega, ?_, h3, ?_⟩
      · rw [e]; simpa using h2
      · rw [e, List.take_succ_cons, List.countP_cons_of_neg _ _ hp, h4]

/-- The embedding reproduces the expectation of the repository test on its first record -/
theorem parseTrendingProjects_testPage :
    parseTrendingProjects testPage =
      [ { name := "user/repo1", url := "https://github.com/user/repo1",
          description := "Description 1", stars := .finite 1200 0, forks := .finite 345 0,
          language := "TypeScript", updatedAt := "2024-01-01", rank := 1 } ] := by
  decide

/-- C5, as stated, fails when an earlier container was skipped: on a page whose first
container has no heading link, the first (and only) record has rank 2, not 1. -/
theorem rank_not_emitted_position :
    (parseTrendingProjects skippedRowPage).length = 1 ∧
    (parseTrendingProjects skippedRowPage).map Project.rank = [2] := by
  decide

/-- C5 (amended): the record at 0-based position `i` of the result has as rank the 1-based
position of its container among all matched containers; that rank is at least `i + 1`,
exactly `i + 1` containers up to it have a heading link, and it equals `i + 1` when none of
the containers up to it was skipped. -/
theorem rank_is_container_position (html : Document) (i : Nat) (r : Project)
    (h : (parseTrendingProjects html)[i]? = some r) :
    i + 1 ≤ r.rank ∧
    (∃ article, (boxRows html)[r.rank - 1]? = some article ∧
      (headingLinks article).length > 0 ∧ r = buildProject (r.rank - 1) article) ∧
    ((boxRows html).take r.rank).countP (fun c => decide ((headingLinks c).length > 0))
      = i + 1 ∧
    ((∀ c ∈ (boxRows html).take r.rank, (headingLinks c).length > 0) → r.rank = i + 1) := by
  rw [parseTrendingProjects_eq, List.getElem?_map] at h
  cases hL : ((boxRows html).enum.filter
      (fun e => decide ((headingLinks e.2).length > 0)))[i]? with
  | none => simp [hL] at h
  | some e =>
    obtain ⟨j, x⟩ := e
    rw [hL] at h
    simp at h
    subst h
    obtain ⟨-, h2, h3, h4⟩ := filter_enumFrom_position
      (fun c => decide ((headingLinks c).length > 0)) (boxRows html) 0 i j x hL
    simp only [Nat.sub_zero] at h2 h4
    have hrank : (buildProject j x).rank = j + 1 := rfl
    have hlen : j < (boxRows html).length := by
      rcases List.getElem?_eq_some_iff.mp h2 with ⟨hj, -⟩
      exact hj
    have hcount := List.countP_le_length
      (fun c => decide ((headingLinks c).length > 0)) (l := (boxRows html).take (j + 1))
    rw [h4, List.length_take] at hcount
    refine ⟨by rw [hrank]; omega, ⟨x, ?_, by simpa using h3, ?_⟩, by rw [hrank]; exact h4, ?_⟩
    · rw [hrank]; simpa using h2
    · rw [hrank]; rfl
    · intro hall
      rw [hrank] at hall ⊢
      have hcp : ((boxRows html).take (j + 1)).countP
          (fun c => decide ((headingLinks c).length > 0))
          = ((boxRows html).take (j + 1)).length := by
        rw [List.countP_eq_length]
        intro c hc
        simpa using hall c hc
      rw [h4, List.length_take] at hcp
      omega

/-- Witness of C5 (amended): the record of the page with a skipped first container. -/
theorem rank_is_container_position_witness :
    0 + 1 ≤ (buildProject 1 (Node.element "div" [("class", "Box-row")]
      [.element "h2" [] [.element "a" [("href", "/user/repo")] [.text "user/repo"]]])).rank :=
  (rank_is_container_position skippedRowPage 0
    (buildProject 1 (Node.element "div" [("class", "Box-row")]
      [.element "h2" [] [.element "a" [("href", "/user/repo")] [.text "user/repo"]]]))
    (by decide)).1

/-- C6: `parseTrendingProjects` emits one record for each `.Box-row` container with a
heading link and none for the others, in document order; the rank of a record is the
1-based position of its container among all matched containers, so the ranks increase
strictly; and with no matching container the result is empty. -/
theorem parse_emits_linked_rows (html : Document) :
    parseTrendingProjects html =
      ((boxRows html).enum.filter (fun e => decide ((headingLinks e.2).length > 0))).map
        (fun e => buildProject e.1 e.2) ∧
    (∀ (index : Nat) (article : Node), (buildProject index article).rank = index + 1) ∧
    (parseTrendingProjects html).length
      = (boxRows html).countP (fun c => decide ((headingLinks c).length > 0)) ∧
    ((parseTrendingProjects html).map Project.rank).Pairwise (fun a b => a < b) ∧
    (boxRows html = [] → parseTrendingProjects html = []) := by
  refine ⟨parseTrendingProjects_eq html, fun _ _ => rfl, ?_, ?_, ?_⟩
  · rw [parseTrendingProjects_eq, List.length_map, List.enum, ← List.countP_eq_length_filter]
    have key : ∀ (l : List Node) (k : Nat),
        (l.enumFrom k).countP (fun e => decide ((headingLinks e.2).length > 0))
          = l.countP (fun c => decide ((headingLinks c).length > 0)) := by
      intro l
      induction l with
      | nil => intro k; rfl
      | cons a l ih => intro k; simp [List.enumFrom_cons, List.countP_cons, ih (k + 1)]
    exact key _ 0
  · rw [parseTrendingProjects_eq, List.map_map]
    have hsub : List.Sublist
        ((boxRows html).enum.filter (fun e => decide ((headingLinks e.2).length > 0)))
        (boxRows html).enum := List.filter_sublist _
    have hpw : ((boxRows html).enum).Pairwise (fun a b => a.1 < b.1) := by
      have := List.pairwise_lt_range (boxRows html).length
      rw [← List.enum_map_fst, List.pairwise_map] at this
      exact this
    rw [List.pairwise_map]
    exact (hpw.sublist hsub).imp (fun {a b} hab => by
      show (buildProject a.1 a.2).rank < (buildProject b.1 b.2).rank
      show a.1 + 1 < b.1 + 1
      omega)
  · intro hrows
    rw [parseTrendingProjects_eq, hrows]
    rfl

/-- Witness of C6: on the page with three containers the first and the third, an `h2` that
is itself the container, are emitted with ranks 1 and 3 and the second is skipped; the page
of the repository test without any container gives the empty sequence. -/
theorem parse_emits_linked_rows_witness :
    (parseTrendingProjects headingRowPage).map Project.name = ["user/repo1", "o/r"] ∧
    (parseTrendingProjects headingRowPage).map Project.url
      = ["https://github.com/user/repo1", "https://github.com/o/r"] ∧
    (parseTrendingProjects headingRowPage).map Project.rank = [1, 3] ∧
    (parseTrendingProjects headingRowPage).length = 2 ∧
    parseTrendingProjects noRowPage = [] :=
  ⟨by rw [(parse_emits_linked_rows headingRowPage).1]; decide,
   by rw [(parse_emits_linked_rows headingRowPage).1]; decide,
   by rw [(parse_emits_linked_rows headingRowPage).1]; decide,
   by rw [(parse_emits_linked_rows headingRowPage).2.2.1]; decide,
   (parse_emits_linked_rows noRowPage).2.2.2.2 rfl⟩

/-- C7, as stated, fails: a container whose heading link has only blank text and no `href`
is emitted, as a record with the empty name. -/
theorem blank_name_is_emitted :
    (parseTrendingProjects blankLinkPage).length = 1 ∧
    (parseTrendingProjects blankLinkPage).map Project.name = [""] ∧
    (boxRows blankLinkPage).map (fun article => selectionAttr "href" (headingLinks article))
      = [none] := by
  decide

/-- C7 (amended): every record comes from a container that has a heading link, an `a` below
an `h2` that is the container or lies in it; its name is the trimmed text of the heading
links, which is empty when that text is blank, so a container with a blank link is emitted
all the same; and when the first heading link has an `href`, the url is the fixed origin
followed by it. -/
theorem record_name_is_link_text (html : Document) (r : Project)
    (h : r ∈ parseTrendingProjects html) :
    ∃ article ∈ boxRows html, (headingLinks article).length > 0 ∧
      r.name = trim (selectionText (headingLinks article)) ∧
      ∀ href, selectionAttr "href" (headingLinks article) = some href →
        r.url = "https://github.com" ++ href := by
  rw [parseTrendingProjects_eq, List.mem_map] at h
  obtain ⟨⟨j, x⟩, hmem, rfl⟩ := h
  rw [List.mem_filter] at hmem
  obtain ⟨hin, hp⟩ := hmem
  refine ⟨x, ?_, by simpa using hp, rfl, ?_⟩
  · have := List.mem_map_of_mem Prod.snd hin
    rw [List.enum_map_snd] at this
    exact this
  · intro href hhref
    show concatUndefined "https://github.com" (selectionAttr "href" (headingLinks x)) = _
    rw [hhref]
    rfl

/-- Witness of C7 (amended): the record of the one-container test page, whose name and url
come from its heading link. -/
theorem record_name_is_link_text_witness :
    ∃ article ∈ boxRows testPage, (headingLinks article).length > 0 ∧
      "user/repo1" = trim (selectionText (headingLinks article)) ∧
      ∀ href, selectionAttr "href" (headingLinks article) = some href →
        "https://github.com/user/repo1" = "https://github.com" ++ href :=
  record_name_is_link_text testPage
    { name := "user/repo1", url := "https://github.com/user/repo1",
      description := "Description 1", stars := .finite 1200 0, forks := .finite 345 0,
      language := "TypeScript", updatedAt := "2024-01-01", rank := 1 } (by decide)

/-! ## The number parser (claims C8 to C10) -/

/-- Halving finds the binary logarithm when the fuel is at least the argument -/
theorem log2Fuel_spec (fuel n : Nat) (hfuel : n ≤ fuel) (hn : n ≠ 0) :
    2 ^ log2Fuel fuel n ≤ n ∧ n < 2 ^ (log2Fuel fuel n + 1) := by
  induction fuel generalizing n with
  | zero => omega
  | succ fuel ih =>
    unfold log2Fuel
    by_cases h2 : n < 2
    · simp [h2]; omega
    · simp only [h2, if_false]
      obtain ⟨h1, h3⟩ := ih (n / 2) (by omega) (by omega)
      rw [pow_succ, pow_succ] at *
      constructor <;> omega

/-- Bounds on `floorLog2` -/
theorem floorLog2_spec (n : Nat) (hn : n ≠ 0) :
    2 ^ floorLog2 n ≤ n ∧ n < 2 ^ (floorLog2 n + 1) :=
  log2Fuel_spec n n le_rfl hn

/-- A multiple of `2 ^ k` over `2 ^ k` is an integer -/
theorem normalize_mul_pow (n k : Nat) : normalize (n * 2 ^ k) k = .finite n 0 := by
  induction k generalizing n with
  | zero => simp [normalize]
  | succ k ih =>
    have h1 : n * 2 ^ (k + 1) % 2 = 0 := by
      rw [pow_succ, ← Nat.mul_assoc]; exact Nat.mul_mod_left _ 2
    have h2 : n * 2 ^ (k + 1) / 2 = n * 2 ^ k := by
      rw [pow_succ, ← Nat.mul_assoc]; exact Nat.mul_div_cancel _ (by norm_num)
    rw [normalize, if_pos h1, h2, ih]

/-- An integer over 1 rounds to itself -/
theorem roundHalfEven_one (x : Nat) : roundHalfEven x 1 = x := by
  simp [roundHalfEven, Nat.mod_one]

/-- Integers below `2 ^ 53` are doubles: rounding leaves them as they are -/
theorem roundToDouble_exact (n : Nat) (hn : n < 2 ^ 53) : roundToDouble n 1 = .finite n 0 := by
  by_cases h0 : n = 0
  · simp [roundToDouble, h0]
  obtain ⟨hlo, hhi⟩ := floorLog2_spec n h0
  have hL : floorLog2 n < 53 :=
    (Nat.pow_lt_pow_iff_right (by norm_num : 1 < 2)).mp (lt_of_le_of_lt hlo hn)
  have hone : floorLog2 1 = 0 := by decide
  have hexp : binaryExponent n 1 = (floorLog2 n : Int) := by
    simp [binaryExponent, hone, hlo]
  unfold roundToDouble
  rw [if_neg h0, hexp]
  have hp : max ((floorLog2 n : Int) - 52) (-1074) = (floorLog2 n : Int) - 52 := by omega
  simp only [hp]
  by_cases h52 : floorLog2 n = 52
  · have hlog : ¬ (1024 ≤ floorLog2 n) := by omega
    simp [h52, roundHalfEven_one, hlog]
  · have hneg : ¬ (0 ≤ (floorLog2 n : Int) - 52) := by omega
    have htn : ((floorLog2 n : Int) - 52).toNat = 0 := by omega
    have hnt : (-((floorLog2 n : Int) - 52)).toNat = 52 - floorLog2 n := by omega
    rw [if_neg hneg, htn, hnt]
    simp [roundHalfEven_one, normalize_mul_pow]

/-- The double nearest to one millionth -/
theorem roundToDouble_millionth : roundToDouble 1 (10 ^ 6) = .finite 4722366482869645 72 := by
  decide

/-- On an integer below `2 ^ 53`, `parseInt` of the Number gives the integer back -/
theorem parseIntNumber_exact (n : Nat) (hn : n < 2 ^ 53) :
    parseIntNumber (.finite n 0) = .finite n 0 := by
  by_cases h0 : n = 0
  · simp [parseIntNumber, h0]
  have hbig : ¬ (10 ^ 21 * 1 ≤ n) := by
    have : (2 : Nat) ^ 53 < 10 ^ 21 * 1 := by norm_num
    omega
  have hsmall : belowPositional n 0 = false := by
    have h72 : (4722366482869645 : Nat) * 2 ^ 0 < 2 ^ 72 := by norm_num
    have hge : 1 * 2 ^ 72 ≤ n * 2 ^ 72 := Nat.mul_le_mul_right _ (by omega)
    simp only [belowPositional, roundToDouble_millionth, decide_eq_false_iff_not]
    omega
  simp only [parseIntNumber, if_neg h0, hsmall, pow_zero, Nat.div_one, JSNumber.ofNat]
  rw [if_neg (by simpa using hbig)]
  exact roundToDouble_exact n hn

/-- The Number 1000 -/
theorem ofNat_thousand : JSNumber.ofNat 1000 = .finite 1000 0 :=
  roundToDouble_exact 1000 (by norm_num)

/-- No digit is the letter `k` -/
theorem k_not_mem_digits (ds : List Char) (hdig : ∀ c ∈ ds, c.isDigit = true) : 'k' ∉ ds :=
  fun h => absurd (hdig 'k' h) (by decide)

/-- C8 fails in the code on the thousand path with a fraction: the kept characters of
`32.3k` are `32.3k`, whose decimal value times 1000 is 32300, but `parseNumber` returns
32299, because the product of the double nearest 32.3 and 1000 is 32299.999999999996 and
`parseInt` cuts it off; likewise `64.1k` gives 64099 and `128.2k` gives 128199, while the
values of the repository test, `1.2k` and `5.6k`, come out as 1200 and 5600. -/
theorem parseNumber_not_truncated_decimal :
    "32.3k".data.filter keepChar = "32".data ++ '.' :: "3".data ++ ['k'] ∧
    truncatedThousands "32".data "3".data = 32300 ∧
    parseNumber (some "32.3k") = .finite 32299 0 ∧
    truncatedThousands "64".data "1".data = 64100 ∧
    parseNumber (some "64.1k") = .finite 64099 0 ∧
    truncatedThousands "128".data "2".data = 128200 ∧
    parseNumber (some "128.2k") = .finite 128199 0 ∧
    parseNumber (some "1.2k") = .finite 1200 0 ∧
    parseNumber (some "5.6k") = .finite 5600 0 := by
  decide

/-- The paths of `parseNumber` that give the decimal value: for a text whose kept characters
are a non-empty digit string of value below `2 ^ 53`, `parseNumber` returns that integer,
so grouping commas and blanks are ignored; for kept characters `<digits>k` with 1000 times
the value below `2 ^ 53`, it returns the value times 1000. -/
theorem parseNumber_digit_strings (text : String) (ds : List Char) (hne : ds ≠ [])
    (hds : ∀ c ∈ ds, c.isDigit = true) :
    (text.data.filter keepChar = ds → decimalValue ds < 2 ^ 53 →
      parseNumber (some text) = .finite (decimalValue ds) 0) ∧
    (text.data.filter keepChar = ds ++ ['k'] → 1000 * decimalValue ds < 2 ^ 53 →
      parseNumber (some text) = .finite (truncatedThousands ds []) 0) ∧
    parseNumber (some "1234") = .finite 1234 0 ∧ parseNumber (some "1,234") = .finite 1234 0 := by
  have hk : 'k' ∉ ds := k_not_mem_digits ds hds
  have hnonempty : ∀ l : List Char, text.data.filter keepChar = l → l ≠ [] →
      text.data.isEmpty = false := by
    intro l hl hl0
    cases htd : text.data with
    | nil => rw [htd] at hl; exact absurd hl.symm hl0
    | cons a t => rfl
  have htake : ds.takeWhile Char.isDigit = ds := List.takeWhile_eq_self_iff.mpr hds
  have hdsE : ds.isEmpty = false := by cases ds <;> simp_all
  refine ⟨?_, ?_, by decide, by decide⟩
  · intro hf hv
    have hcont : ds.contains 'k' = false := by simpa using hk
    simp only [parseNumber, hnonempty ds hf hne, hf, hcont, Bool.false_eq_true, if_false,
      parseIntString, htake, hdsE, roundToDouble_exact _ hv, JSNumber.orZero]
  · intro hf hv
    have hcont : (ds ++ ['k']).contains 'k' = true := by simp
    have herase : (ds ++ ['k']).erase 'k' = ds := by
      rw [List.erase_append_right _ hk]; simp
    have hdrop : ds.dropWhile Char.isDigit = [] := List.dropWhile_eq_nil_iff.mpr hds
    have hv1 : decimalValue ds < 2 ^ 53 := by omega
    have hv2 : decimalValue ds * 1000 < 2 ^ 53 := by omega
    have hmul : (JSNumber.finite (decimalValue ds) 0).mul (.finite 1000 0)
        = .finite (decimalValue ds * 1000) 0 := by
      simp only [JSNumber.mul, Nat.add_zero, pow_zero]
      exact roundToDouble_exact _ hv2
    simp only [parseNumber, hnonempty _ hf (by simp), hf, hcont, if_true, herase,
      Bool.false_eq_true, if_false, parseFloat, htake, hdrop, hdsE, List.isEmpty_nil,
      Bool.false_and, List.append_nil, List.length_nil, pow_zero, roundToDouble_exact _ hv1,
      ofNat_thousand, hmul, parseIntNumber_exact _ hv2, truncatedThousands, Nat.div_one]

/-- C9 fails on the thousand path: a text that keeps a `k` but no digit, such as `k` or the
link text `Fork`, makes `parseNumber` return NaN, while the digit path returns 0 for
`invalid`, the empty string and `null`. -/
theorem parseNumber_nan_without_digit :
    parseNumber (some "k") = .nan ∧ parseNumber (some "Fork") = .nan ∧
    parseNumber (some ".k") = .nan ∧
    parseNumber (some "invalid") = .finite 0 0 ∧ parseNumber (some "") = .finite 0 0 ∧
    parseNumber none = .finite 0 0 := by
  decide

/-- C10, as stated, fails: an upper-case marker is not recognised, `1.2K` parses to 1
and `1.2k` to 1200. -/
theorem upper_case_marker_not_recognised :
    parseNumber (some "1.2K") = .finite 1 0 ∧ parseNumber (some "1.2k") = .finite 1200 0 ∧
    parseNumber (some "1.2K") ≠ parseNumber (some "1.2k") := by
  decide

/-- C10 (amended): only the lower-case `k` is a thousand marker; an upper-case `K` is
removed by the filter like any other character, so appending it to a text does not change
the result of `parseNumber`. -/
theorem parseNumber_append_upper_K (text : String) :
    parseNumber (some (text ++ "K")) = parseNumber (some text) := by
  have hfilter : (text ++ "K").data.filter keepChar = text.data.filter keepChar := by
    rw [String.data_append, List.filter_append]
    have : "K".data.filter keepChar = [] := by decide
    rw [this, List.append_nil]
  cases htd : text.data with
  | nil =>
    have hK : (text ++ "K").data = ['K'] := by rw [String.data_append, htd]; rfl
    simp only [parseNumber, hK, htd]
    decide
  | cons a t =>
    have hne : (text ++ "K").data.isEmpty = false := by
      rw [String.data_append, htd]; rfl
    simp only [parseNumber, hne, hfilter, htd, List.isEmpty_cons]

/-! ## The report builder and store (claims C11 to C20) -/

/-- C13 fails on the code, against the repository tests: the summary puts the bold markers
between the label and the colon (`**项目总数**: 3`), so it contains none of the substrings
`项目总数: 3`, `总星数: 4.5K`, `总Fork数: 450` and `主要语言: JavaScript(2), TypeScript(1)`
that the test `应该生成正确的摘要统计` expects for its three records. -/
theorem summary_labels_are_bold :
    generateSummary summaryTestProjects "2024/1/15 08:00:00" =
      "## 📊 摘要\n\n- **项目总数**: 3\n- **总星数**: 4.5K\n- **总Fork数**: 450\n" ++
      "- **主要语言**: JavaScript(2), TypeScript(1)\n\n> 报告生成时间: 2024/1/15 08:00:00" ∧
    containsSubstr "项目总数: 3".data
      (generateSummary summaryTestProjects "2024/1/15 08:00:00").data = false ∧
    containsSubstr "总星数: 4.5K".data
      (generateSummary summaryTestProjects "2024/1/15 08:00:00").data = false ∧
    containsSubstr "总Fork数: 450".data
      (generateSummary summaryTestProjects "2024/1/15 08:00:00").data = false ∧
    containsSubstr "主要语言: JavaScript(2), TypeScript(1)".data
      (generateSummary summaryTestProjects "2024/1/15 08:00:00").data = false := by
  decide

/-- What `describeFiles` returns lists exactly the names it was given, each with the path
joined to the directory -/
theorem describeFiles_ok (outputDir : String) (fs : FileSystem) (files : List String)
    (reports : List Report) (h : describeFiles outputDir fs files = .ok reports) :
    reports.map Report.fileName = files ∧
    reports.map Report.filePath = files.map (pathJoin outputDir) := by
  induction files generalizing reports with
  | nil =>
    simp only [describeFiles, Except.ok.injEq] at h
    subst h
    exact ⟨rfl, rfl⟩
  | cons file rest ih =>
    unfold describeFiles at h
    cases hs : fs.statSync (pathJoin outputDir file) with
    | error e => simp [hs] at h
    | ok stats =>
      cases hr : describeFiles outputDir fs rest with
      | error e => simp [hs, hr] at h
      | ok rs =>
        simp only [hs, hr, Except.ok.injEq] at h
        subst h
        obtain ⟨h1, h2⟩ := ih rs hr
        simp [h1, h2]

/-- A name is listed only if it is a directory entry ending in `.md` -/
theorem mem_listedNames (entries : List String) (file : String) :
    file ∈ listedNames entries ↔ file ∈ entries ∧ ".md".data.isSuffixOf file.data = true := by
  simp only [listedNames, List.mem_reverse]
  rw [(List.perm_insertionSort _ _).mem_iff, List.mem_filter]

/-- The list returned by `getReportList` is empty or describes the listed names -/
theorem getReportList_cases (outputDir : String) (fs : FileSystem) :
    getReportList outputDir fs = .ok [] ∨
    ∃ entries reports, fs.readdirSync outputDir = .ok entries ∧
      describeFiles outputDir fs (listedNames entries) = .ok reports ∧
      getReportList outputDir fs = .ok reports := by
  unfold getReportList
  cases hd : fs.readdirSync outputDir with
  | error e => exact Or.inl rfl
  | ok entries =>
    cases hf : describeFiles outputDir fs (listedNames entries) with
    | error e =>
      left
      simp [bind, Except.bind, hf]
    | ok reports =>
      right
      exact ⟨entries, reports, rfl, hf, by simp [bind, Except.bind, hf]⟩

/-- C17, as stated, fails: the filter of `getReportList` is `endsWith('.md')`, so a file
`README.md` in the report directory is listed although its name is not of the form
`trending-YYYY-MM-DD.md`, and `cleanupOldReports(0)` unlinks it. -/
theorem readme_is_listed_and_deleted :
    isReportName "README.md" = false ∧
    getReportList "/app/reports" (sampleFileSystem ["README.md", "notes.txt"] []) =
      .ok [{ fileName := "README.md", filePath := "/app/reports/README.md",
             createdAt := 1705276800000, modifiedAt := 1705363200000, size := 1024 }] ∧
    (cleanupOldReports "/app/reports" (sampleFileSystem ["README.md", "notes.txt"] []) 0).unlinked
      = ["/app/reports/README.md"] := by
  refine ⟨by decide, rfl, by decide⟩

/-- C17 (amended): every entry returned by `getReportList` is a directory entry whose name
ends in `.md`, with the path joined to the report directory; a directory entry whose name
does not end in `.md` is never listed, and every path unlinked by `cleanupOldReports` is
the path of such a `.md` entry. -/
theorem listing_keeps_md_entries (outputDir : String) (fs : FileSystem) (entries : List String)
    (reports : List Report) (keepCount : Nat)
    (hdir : fs.readdirSync outputDir = .ok entries)
    (hlist : getReportList outputDir fs = .ok reports) :
    (∀ r ∈ reports, r.fileName ∈ entries ∧ ".md".data.isSuffixOf r.fileName.data = true ∧
      r.filePath = pathJoin outputDir r.fileName) ∧
    (∀ file ∈ entries, ".md".data.isSuffixOf file.data = false →
      file ∉ reports.map Report.fileName) ∧
    (∀ path ∈ (cleanupOldReports outputDir fs keepCount).unlinked,
      ∃ file ∈ entries, ".md".data.isSuffixOf file.data = true ∧
        path = pathJoin outputDir file) := by
  have hnames : ∀ r ∈ reports, r.fileName ∈ listedNames entries ∧
      r.filePath = pathJoin outputDir r.fileName := by
    rcases getReportList_cases outputDir fs with h | ⟨entries', reports', hd', hdesc, hl'⟩
    · rw [h] at hlist
      cases hlist
      intro r hr
      cases hr
    · rw [hd'] at hdir
      cases hdir
      rw [hl'] at hlist
      cases hlist
      obtain ⟨h1, h2⟩ := describeFiles_ok outputDir fs _ _ hdesc
      intro r hr
      constructor
      · rw [← h1]
        exact List.mem_map_of_mem _ hr
      · have key : ∀ (l : List Report) (names : List String),
            l.map Report.fileName = names → l.map Report.filePath = names.map (pathJoin outputDir) →
            ∀ r ∈ l, r.filePath = pathJoin outputDir r.fileName := by
          intro l
          induction l with
          | nil => intro _ _ _ r hr; cases hr
          | cons a l ih =>
            intro names hn hp r hr
            cases names with
            | nil => simp at hn
            | cons n ns =>
              simp only [List.map_cons, List.cons.injEq] at hn hp
              rcases List.mem_cons.mp hr with rfl | hr'
              · rw [hp.1, hn.1]
              · exact ih ns hn.2 hp.2 r hr'
        exact key _ _ h1 h2 r hr
  have hrep : ∀ r ∈ reports, r.fileName ∈ entries ∧
      ".md".data.isSuffixOf r.fileName.data = true ∧
      r.filePath = pathJoin outputDir r.fileName := by
    intro r hr
    obtain ⟨h1, h2⟩ := hnames r hr
    obtain ⟨h3, h4⟩ := (mem_listedNames entries r.fileName).mp h1
    exact ⟨h3, h4, h2⟩
  refine ⟨hrep, ?_, ?_⟩
  · intro file _ hsuf hmem
    obtain ⟨r, hr, rfl⟩ := List.mem_map.mp hmem
    rw [(hrep r hr).2.1] at hsuf
    cases hsuf
  · intro path hpath
    have hsub : ∀ (l : List Report), ∀ p ∈ (unlinkEach fs l).1, ∃ r ∈ l, p = r.filePath := by
      intro l
      induction l with
      | nil => intro p hp; cases hp
      | cons a l ih =>
        intro p hp
        unfold unlinkEach at hp
        cases hu : fs.unlinkSync a.filePath with
        | error e => simp [hu] at hp
        | ok u =>
          simp only [hu, List.mem_cons] at hp
          rcases hp with rfl | hp
          · exact ⟨a, List.mem_cons_self _ _, rfl⟩
          · obtain ⟨r, hr, hrp⟩ := ih p hp
            exact ⟨r, List.mem_cons_of_mem _ hr, hrp⟩
    unfold cleanupOldReports at hpath
    rw [hlist] at hpath
    by_cases hlen : reports.length > keepCount
    · simp only [hlen, if_true] at hpath
      obtain ⟨r, hr, rfl⟩ := hsub _ path hpath
      have hr' : r ∈ reports := List.mem_of_mem_drop hr
      exact ⟨r.fileName, (hrep r hr').1, (hrep r hr').2.1, (hrep r hr').2.2⟩
    · simp only [hlen, if_false] at hpath
      cases hpath

/-- Witness of C17 (amended): a directory with a report, a README and a text file. -/
theorem listing_keeps_md_entries_witness :
    "notes.txt" ∉ sampleListing.map Report.fileName :=
  (listing_keeps_md_entries "/app/reports"
    (sampleFileSystem ["README.md", "notes.txt", "trending-2024-01-15.md"] [])
    ["README.md", "notes.txt", "trending-2024-01-15.md"] sampleListing 7 rfl rfl).2.1
    "notes.txt" (by decide) (by decide)

/-- The code-unit order compares any two sequences -/
theorem unitsLe_total (a b : List Nat) : unitsLe a b = true ∨ unitsLe b a = true := by
  induction a generalizing b with
  | nil => exact Or.inl (by simp [unitsLe])
  | cons x a ih =>
    cases b with
    | nil => exact Or.inr (by simp [unitsLe])
    | cons y b =>
      simp only [unitsLe, Bool.or_eq_true, decide_eq_true_eq, Bool.and_eq_true, beq_iff_eq]
      rcases Nat.lt_trichotomy x y with h | h | h
      · exact Or.inl (Or.inl h)
      · rcases ih b with h' | h'
        · exact Or.inl (Or.inr ⟨h, h'⟩)
        · exact Or.inr (Or.inr ⟨h.symm, h'⟩)
      · exact Or.inr (Or.inl h)

/-- The code-unit order is transitive -/
theorem unitsLe_trans (a b c : List Nat) (hab : unitsLe a b = true) (hbc : unitsLe b c = true) :
    unitsLe a c = true := by
  induction a generalizing b c with
  | nil => simp [unitsLe]
  | cons x a ih =>
    cases b with
    | nil => simp [unitsLe] at hab
    | cons y b =>
      cases c with
      | nil => simp [unitsLe] at hbc
      | cons z c =>
        simp only [unitsLe, Bool.or_eq_true, decide_eq_true_eq, Bool.and_eq_true,
          beq_iff_eq] at hab hbc ⊢
        rcases hab with h1 | ⟨h1, h1'⟩ <;> rcases hbc with h2 | ⟨h2, h2'⟩
        · exact Or.inl (by omega)
        · exact Or.inl (by omega)
        · exact Or.inl (by omega)
        · exact Or.inr ⟨by omega, ih b c h1' h2'⟩

/-- The listed names are in descending code-unit order -/
theorem listedNames_sorted (entries : List String) :
    (listedNames entries).Pairwise (fun a b => jsStringLe b a = true) := by
  haveI : IsTotal String (fun a b => jsStringLe a b = true) :=
    ⟨fun a b => unitsLe_total (codeUnits a) (codeUnits b)⟩
  haveI : IsTrans String (fun a b => jsStringLe a b = true) :=
    ⟨fun a b c => unitsLe_trans (codeUnits a) (codeUnits b) (codeUnits c)⟩
  have h := List.sorted_insertionSort (fun a b => jsStringLe a b = true)
    (entries.filter (fun file => ".md".data.isSuffixOf file.data))
  exact List.pairwise_reverse.mpr h

/-- The listed names are the directory entries ending in `.md`, each as often as it occurs -/
theorem listedNames_perm (entries : List String) :
    (listedNames entries).Perm (entries.filter (fun file => ".md".data.isSuffixOf file.data)) :=
  (List.reverse_perm _).trans (List.perm_insertionSort _ _)

/-- When every `statSync` succeeds, `describeFiles` returns, and each entry carries the
metadata of its file -/
theorem describeFiles_success (outputDir : String) (fs : FileSystem) (files : List String)
    (h : ∀ file ∈ files, ∃ stats, fs.statSync (pathJoin outputDir file) = .ok stats) :
    ∃ reports, describeFiles outputDir fs files = .ok reports ∧
      ∀ r ∈ reports, ∃ stats, fs.statSync (pathJoin outputDir r.fileName) = .ok stats ∧
        r.filePath = pathJoin outputDir r.fileName ∧ r.createdAt = stats.birthtime ∧
        r.modifiedAt = stats.mtime ∧ r.size = stats.size := by
  induction files with
  | nil => exact ⟨[], rfl, fun r hr => by cases hr⟩
  | cons file rest ih =>
    obtain ⟨stats, hs⟩ := h file (List.mem_cons_self _ _)
    obtain ⟨rs, hrs, hall⟩ := ih (fun f hf => h f (List.mem_cons_of_mem _ hf))
    refine ⟨{ fileName := file, filePath := pathJoin outputDir file,
              createdAt := stats.birthtime, modifiedAt := stats.mtime,
              size := stats.size } :: rs, by simp only [describeFiles, hs, hrs], ?_⟩
    intro r hr
    rcases List.mem_cons.mp hr with rfl | hr'
    · exact ⟨stats, hs, rfl, rfl, rfl, rfl⟩
    · exact hall r hr'

/-- When some `statSync` throws, so does `describeFiles` -/
theorem describeFiles_failure (outputDir : String) (fs : FileSystem) (files : List String)
    (h : ∃ file ∈ files, ∃ e, fs.statSync (pathJoin outputDir file) = .error e) :
    ∃ e, describeFiles outputDir fs files = .error e := by
  induction files with
  | nil =>
    obtain ⟨file, hf, _⟩ := h
    cases hf
  | cons file rest ih =>
    unfold describeFiles
    cases hs : fs.statSync (pathJoin outputDir file) with
    | error e => exact ⟨e, rfl⟩
    | ok stats =>
      obtain ⟨f, hf, e, he⟩ := h
      rcases List.mem_cons.mp hf with rfl | hf'
      · rw [hs] at he
        cases he
      · obtain ⟨e', he'⟩ := ih ⟨f, hf', e, he⟩
        exact ⟨e', by simp only [he']⟩

/-- C18: `getReportList` always returns normally; when `readdirSync` or a `statSync` throws it
returns the empty list; otherwise it returns one entry, with the metadata of the file, for
each directory entry whose name ends in `.md` and none for any other, in descending order of
file name (by UTF-16 code units). -/
theorem getReportList_lists_md_files (outputDir : String) (fs : FileSystem) :
    (∃ reports, getReportList outputDir fs = .ok reports) ∧
    (∀ e, fs.readdirSync outputDir = .error e → getReportList outputDir fs = .ok []) ∧
    (∀ entries, fs.readdirSync outputDir = .ok entries →
      ((∃ file ∈ listedNames entries, ∃ e, fs.statSync (pathJoin outputDir file) = .error e) →
        getReportList outputDir fs = .ok []) ∧
      ((∀ file ∈ listedNames entries, ∃ stats, fs.statSync (pathJoin outputDir file) = .ok stats) →
        ∃ reports, getReportList outputDir fs = .ok reports ∧
          (reports.map Report.fileName).Perm
            (entries.filter (fun file => ".md".data.isSuffixOf file.data)) ∧
          (reports.map Report.fileName).Pairwise (fun a b => jsStringLe b a = true) ∧
          ∀ r ∈ reports, ∃ stats, fs.statSync (pathJoin outputDir r.fileName) = .ok stats ∧
            r.filePath = pathJoin outputDir r.fileName ∧ r.createdAt = stats.birthtime ∧
            r.modifiedAt = stats.mtime ∧ r.size = stats.size)) := by
  refine ⟨?_, ?_, ?_⟩
  · rcases getReportList_cases outputDir fs with h | ⟨_, reports, _, _, h⟩
    · exact ⟨[], h⟩
    · exact ⟨reports, h⟩
  · intro e he
    simp [getReportList, he, bind, Except.bind]
  · intro entries hd
    constructor
    · intro hfail
      obtain ⟨e, he⟩ := describeFiles_failure outputDir fs _ hfail
      simp [getReportList, hd, he, bind, Except.bind]
    · intro hall
      obtain ⟨reports, hrs, hfields⟩ := describeFiles_success outputDir fs _ hall
      refine ⟨reports, by simp [getReportList, hd, hrs, bind, Except.bind], ?_, ?_, hfields⟩
      · rw [(describeFiles_ok outputDir fs _ _ hrs).1]
        exact listedNames_perm entries
      · rw [(describeFiles_ok outputDir fs _ _ hrs).1]
        exact listedNames_sorted entries

/-- Witness of C18: the directory of the repository test `应该返回报告列表`. -/
theorem getReportList_lists_md_files_witness :
    getReportList "/app/reports"
      (sampleFileSystem ["report1.md", "report2.md", "other.txt"] []) =
      .ok [{ fileName := "report2.md", filePath := "/app/reports/report2.md",
             createdAt := 1705276800000, modifiedAt := 1705363200000, size := 1024 },
           { fileName := "report1.md", filePath := "/app/reports/report1.md",
             createdAt := 1705276800000, modifiedAt := 1705363200000, size := 1024 }] ∧
    ∃ reports, getReportList "/app/reports"
      (sampleFileSystem ["report1.md", "report2.md", "other.txt"] []) = .ok reports :=
  ⟨rfl, (getReportList_lists_md_files "/app/reports"
    (sampleFileSystem ["report1.md", "report2.md", "other.txt"] [])).1⟩

/-- When no `unlinkSync` throws, the loop unlinks every path it is given -/
theorem unlinkEach_all_ok (fs : FileSystem) (reports : List Report)
    (h : ∀ r ∈ reports, fs.unlinkSync r.filePath = .ok ()) :
    (unlinkEach fs reports).1 = reports.map Report.filePath := by
  induction reports with
  | nil => rfl
  | cons r rest ih =>
    have hr := h r (List.mem_cons_self _ _)
    have hrest := ih (fun x hx => h x (List.mem_cons_of_mem _ hx))
    simp only [unlinkEach, hr, hrest, List.map_cons]

/-- The loop unlinks the paths up to the first `unlinkSync` that throws -/
theorem unlinkEach_takeWhile (fs : FileSystem) (reports : List Report) :
    (unlinkEach fs reports).1 =
      (reports.takeWhile (fun r => (fs.unlinkSync r.filePath).isOk)).map Report.filePath := by
  induction reports with
  | nil => rfl
  | cons r rest ih =>
    unfold unlinkEach
    cases hu : fs.unlinkSync r.filePath with
    | error e => simp [List.takeWhile_cons, hu, Except.isOk, Except.toBool]
    | ok u => simp [List.takeWhile_cons, hu, Except.isOk, Except.toBool, ih]

/-- C19: for the listing `reports` (newest first) and a keep count `k`, when every deletion
succeeds `cleanupOldReports` unlinks exactly the files at positions `k + 1` to `n` of the
listing, in that order, and nothing when `n ≤ k`; the `min n k` reports that remain (when the
listed paths are distinct) are the first ones of the listing. -/
theorem cleanup_deletes_beyond_keepCount (outputDir : String) (fs : FileSystem)
    (keepCount : Nat) (reports : List Report)
    (hlist : getReportList outputDir fs = .ok reports)
    (hok : ∀ r ∈ reports.drop keepCount, fs.unlinkSync r.filePath = .ok ()) :
    (cleanupOldReports outputDir fs keepCount).unlinked
      = (reports.drop keepCount).map Report.filePath ∧
    (reports.length ≤ keepCount → (cleanupOldReports outputDir fs keepCount).unlinked = []) ∧
    (reports.take keepCount).length = min reports.length keepCount ∧
    ((reports.map Report.filePath).Nodup →
      reports.filter (fun r => decide (r.filePath ∉
        (cleanupOldReports outputDir fs keepCount).unlinked)) = reports.take keepCount) := by
  have hun : (cleanupOldReports outputDir fs keepCount).unlinked
      = (reports.drop keepCount).map Report.filePath := by
    unfold cleanupOldReports
    rw [hlist]
    by_cases hlen : reports.length > keepCount
    · simp only [hlen, if_true]
      exact unlinkEach_all_ok fs _ hok
    · simp only [hlen, if_false]
      rw [List.drop_eq_nil_of_le (by omega)]
      rfl
  refine ⟨hun, ?_, ?_, ?_⟩
  · intro hle
    rw [hun, List.drop_eq_nil_of_le hle]
    rfl
  · rw [List.length_take, Nat.min_comm]
  · intro hnodup
    rw [hun]
    have key : ∀ a b : List Report, ((a ++ b).map Report.filePath).Nodup →
        (a ++ b).filter (fun r => decide (r.filePath ∉ b.map Report.filePath)) = a := by
      intro a b hnd
      rw [List.map_append] at hnd
      have hdisj := (List.nodup_append.mp hnd).2.2
      rw [List.filter_append]
      have h1 : a.filter (fun r => decide (r.filePath ∉ b.map Report.filePath)) = a := by
        rw [List.filter_eq_self]
        intro r hr
        simp only [decide_eq_true_eq]
        exact fun hmem => hdisj (List.mem_map_of_mem _ hr) hmem
      have h2 : b.filter (fun r => decide (r.filePath ∉ b.map Report.filePath)) = [] := by
        rw [List.filter_eq_nil_iff]
        intro r hr
        simp only [decide_eq_true_eq, not_not]
        exact List.mem_map_of_mem _ hr
      rw [h1, h2, List.append_nil]
    have h := key (reports.take keepCount) (reports.drop keepCount)
      (by rw [List.take_append_drop]; exact hnodup)
    rw [List.take_append_drop] at h
    exact h

/-- Witness of C19: the three reports of the repository test with keep count 2; the oldest
one is unlinked. -/
theorem cleanup_deletes_beyond_keepCount_witness :
    (cleanupOldReports "/app/reports"
      (sampleFileSystem ["report1.md", "report2.md", "report3.md"] []) 2).unlinked
      = ["/app/reports/report1.md"] :=
  (cleanup_deletes_beyond_keepCount "/app/reports"
    (sampleFileSystem ["report1.md", "report2.md", "report3.md"] []) 2
    [{ fileName := "report3.md", filePath := "/app/reports/report3.md",
       createdAt := 1705276800000, modifiedAt := 1705363200000, size := 1024 },
     { fileName := "report2.md", filePath := "/app/reports/report2.md",
       createdAt := 1705276800000, modifiedAt := 1705363200000, size := 1024 },
     { fileName := "report1.md", filePath := "/app/reports/report1.md",
       createdAt := 1705276800000, modifiedAt := 1705363200000, size := 1024 }]
    rfl (by
      intro r hr
      simp only [List.drop, List.mem_singleton] at hr
      subst hr
      rfl)).1

/-- C20, as stated, fails: with three reports and keep count 1, when unlinking the second
newest report throws, the loop ends there; the call returns normally but the oldest report,
whose `unlinkSync` would succeed, is not unlinked. -/
theorem cleanup_stops_at_first_failure :
    (cleanupOldReports "/app/reports"
      (sampleFileSystem
        ["trending-2024-01-13.md", "trending-2024-01-14.md", "trending-2024-01-15.md"]
        ["/app/reports/trending-2024-01-14.md"]) 1).unlinked = [] ∧
    (sampleFileSystem
        ["trending-2024-01-13.md", "trending-2024-01-14.md", "trending-2024-01-15.md"]
        ["/app/reports/trending-2024-01-14.md"]).unlinkSync
      "/app/reports/trending-2024-01-13.md" = .ok () ∧
    listedNames ["trending-2024-01-13.md", "trending-2024-01-14.md", "trending-2024-01-15.md"]
      = ["trending-2024-01-15.md", "trending-2024-01-14.md", "trending-2024-01-13.md"] := by
  refine ⟨by decide, rfl, by decide⟩

/-- C20 (amended): `cleanupOldReports` never raises; when an `unlinkSync` throws, the
documents beyond the first `keepCount` that precede the failing one in the listing have
been unlinked, and the failing one and all later ones are left: the paths unlinked are those
of the longest run of reports beyond `keepCount` whose `unlinkSync` succeeds. -/
theorem cleanup_unlinks_until_failure (outputDir : String) (fs : FileSystem) (keepCount : Nat)
    (reports : List Report) (hlist : getReportList outputDir fs = .ok reports) :
    (cleanupOldReports outputDir fs keepCount).result = .ok () ∧
    (cleanupOldReports outputDir fs keepCount).unlinked
      = ((reports.drop keepCount).takeWhile
          (fun r => (fs.unlinkSync r.filePath).isOk)).map Report.filePath := by
  unfold cleanupOldReports
  rw [hlist]
  by_cases hlen : reports.length > keepCount
  · simp only [if_pos hlen]
    exact ⟨trivial, unlinkEach_takeWhile fs _⟩
  · simp only [if_neg hlen]
    rw [List.drop_eq_nil_of_le (by omega)]
    exact ⟨trivial, rfl⟩

/-- Witness of C20 (amended): unlinking the oldest of three reports throws, keep count 1. -/
theorem cleanup_unlinks_until_failure_witness :
    (cleanupOldReports "/app/reports"
      (sampleFileSystem ["report1.md", "report2.md", "report3.md"]
        ["/app/reports/report1.md"]) 1).result = .ok () :=
  (cleanup_unlinks_until_failure "/app/reports"
    (sampleFileSystem ["report1.md", "report2.md", "report3.md"] ["/app/reports/report1.md"]) 1
    [{ fileName := "report3.md", filePath := "/app/reports/report3.md",
       createdAt := 1705276800000, modifiedAt := 1705363200000, size := 1024 },
     { fileName := "report2.md", filePath := "/app/reports/report2.md",
       createdAt := 1705276800000, modifiedAt := 1705363200000, size := 1024 },
     { fileName := "report1.md", filePath := "/app/reports/report1.md",
       createdAt := 1705276800000, modifiedAt := 1705363200000, size := 1024 }]
    rfl).1

/-- Folding `++` from an accumulator is the accumulator followed by the joined strings -/
theorem foldl_append_eq_join (l : List String) (acc : String) :
    l.foldl (fun r s => r ++ s) acc = acc ++ String.join l := by
  induction l generalizing acc with
  | nil => simp [String.join]
  | cons a l ih =>
    simp only [List.foldl_cons, String.join]
    rw [ih (acc ++ a), ih ("" ++ a), String.empty_append, String.append_assoc]

/-- A string has no characters exactly when it is the empty string -/
theorem isEmpty_data_iff (s : String) : s.data.isEmpty = true ↔ s = "" := by
  cases s with
  | mk data => cases data <;> simp [String.ext_iff]

/-- One turn of the `forEach` callback appends a text that does not depend on what was
written before -/
theorem appendProject_eq (content : String) (entry : Nat × Project) :
    appendProject content entry = content ++ appendProject "" entry := by
  unfold appendProject
  by_cases h1 : entry.2.description.data.isEmpty = true <;>
  by_cases h2 : entry.2.language.data.isEmpty = true <;>
  by_cases h3 : entry.2.updatedAt.data.isEmpty = true <;>
  simp only [h1, h2, h3, if_true, if_false, Bool.false_eq_true, String.append_assoc,
    String.empty_append]

/-- The list is the heading followed by one block per record -/
theorem generateProjectList_eq (projects : List Project) :
    generateProjectList projects =
      "## 🚀 趋势项目列表\n\n" ++ String.join (projects.enum.map (appendProject "")) := by
  unfold generateProjectList
  have key : ∀ (l : List (Nat × Project)) (acc : String),
      l.foldl appendProject acc = acc ++ String.join (l.map (appendProject "")) := by
    intro l
    induction l with
    | nil => intro acc; simp [String.join]
    | cons e l ih =>
      intro acc
      rw [List.foldl_cons, ih, List.map_cons, appendProject_eq acc e]
      simp only [String.join, List.foldl_cons, String.empty_append]
      rw [foldl_append_eq_join, foldl_append_eq_join, String.append_assoc, String.empty_append]
  exact key _ _

/-- C14: `generateProjectList` emits, after its heading, exactly one block per record in
input order; the block of the record at 1-based position `i` starts with `### i. <name>`,
whatever its `rank`, and consists of the description line (exactly when `description` is
non-empty), the link line, the stars and forks lines, the language line (exactly when
`language` is non-empty), the update line (exactly when `updatedAt` is non-empty) and the
separator. -/
theorem project_list_blocks (projects : List Project) :
    ∃ blocks : List String, blocks.length = projects.length ∧
      generateProjectList projects = "## 🚀 趋势项目列表\n\n" ++ String.join blocks ∧
      ∀ (i : Nat) (p : Project), projects[i]? = some p →
        blocks[i]? = some
          ("### " ++ Nat.repr (i + 1) ++ ". " ++ p.name ++ "\n\n" ++
           (if p.description = "" then "" else "**描述**: " ++ p.description ++ "\n\n") ++
           "**链接**: [" ++ p.name ++ "](" ++ p.url ++ ")\n\n" ++
           "**统计**:\n" ++
           "- ⭐ 星数: " ++ formatNumber p.stars ++ "\n" ++
           "- 🍴 Fork数: " ++ formatNumber p.forks ++ "\n" ++
           (if p.language = "" then "" else "- 💻 语言: " ++ p.language ++ "\n") ++
           (if p.updatedAt = "" then "" else "- 🕐 更新时间: " ++ p.updatedAt ++ "\n") ++
           "\n---\n\n") := by
  refine ⟨projects.enum.map (appendProject ""), by simp, generateProjectList_eq projects, ?_⟩
  intro i p hp
  have henum : projects.enum[i]? = some (i, p) := by
    simp [List.enum, List.getElem?_enumFrom, hp]
  rw [List.getElem?_map, henum]
  simp only [Option.map_some', Option.some.injEq]
  unfold appendProject
  by_cases h1 : p.description = "" <;> by_cases h2 : p.language = "" <;>
  by_cases h3 : p.updatedAt = "" <;>
  simp only [h1, h2, h3, ← isEmpty_data_iff, isEmpty_data_iff, if_true, if_false,
    String.append_assoc, String.empty_append, String.append_empty] <;>
  simp [h1, h2, h3, isEmpty_data_iff, String.append_assoc]

/-- Witness of C14: the record of the repository test without description, language and
update time, given rank 7; its block is headed `### 1.` and has neither optional line. -/
theorem project_list_blocks_witness :
    ∃ blocks : List String, blocks.length = 1 ∧
      generateProjectList [bareProject] = "## 🚀 趋势项目列表\n\n" ++ String.join blocks ∧
      blocks[0]? = some ("### 1. test/repo\n\n**链接**: [test/repo](https://github.com/test/repo)" ++
        "\n\n**统计**:\n- ⭐ 星数: 1.0K\n- 🍴 Fork数: 100\n\n---\n\n") := by
  obtain ⟨blocks, hlen, heq, hblock⟩ := project_list_blocks [bareProject]
  refine ⟨blocks, hlen, heq, ?_⟩
  rw [hblock 0 bareProject rfl]
  decide

/-- One step of the digit loop of `Nat.repr` -/
theorem toDigitsCore_step (b fuel n : Nat) (ds : List Char) :
    Nat.toDigitsCore b (fuel + 1) n ds =
      if n / b = 0 then Nat.digitChar (n % b) :: ds
      else Nat.toDigitsCore b fuel (n / b) (Nat.digitChar (n % b) :: ds) := by
  rfl

/-- The decimal string of a number from 1000 to 9999 is its four digits -/
theorem repr_four_digits (n : Nat) (h1 : 1000 ≤ n) (h2 : n ≤ 9999) :
    Nat.repr n = String.mk [Nat.digitChar (n / 1000), Nat.digitChar (n / 100 % 10),
      Nat.digitChar (n / 10 % 10), Nat.digitChar (n % 10)] := by
  obtain ⟨m, rfl⟩ : ∃ m, n = m + 4 := ⟨n - 4, by omega⟩
  have e1 : (m + 4) / 10 ≠ 0 := by omega
  have e2 : (m + 4) / 10 / 10 ≠ 0 := by omega
  have e3 : (m + 4) / 10 / 10 / 10 ≠ 0 := by omega
  have e4 : (m + 4) / 10 / 10 / 10 / 10 = 0 := by omega
  have d1 : (m + 4) / 10 / 10 / 10 % 10 = (m + 4) / 1000 := by omega
  have d2 : (m + 4) / 10 / 10 % 10 = (m + 4) / 100 % 10 := by omega
  simp only [Nat.repr, Nat.toDigits, List.asString]
  rw [show m + 4 + 1 = (m + 1) + 1 + 1 + 1 + 1 from rfl]
  rw [toDigitsCore_step, if_neg e1, toDigitsCore_step, if_neg e2, toDigitsCore_step, if_neg e3,
    toDigitsCore_step, if_pos e4, d1, d2]

/-- A number below 100, printed and padded to two places, is its two digits -/
theorem pad_two_digits : ∀ v, v < 100 →
    padStart (Nat.repr v) 2 '0' = String.mk [Nat.digitChar (v / 10), Nat.digitChar (v % 10)] := by
  decide

/-- The character of a digit is a decimal digit, with code unit 48 plus the digit -/
theorem digitChar_spec : ∀ d, d < 10 →
    (Nat.digitChar d).isDigit = true ∧ (Nat.digitChar d).toNat = 48 + d := by
  decide

/-- The text of `formatDate` for a date with a four-digit year -/
theorem formatDate_eq (date : CalendarDate) (h : date.fourDigitYear) :
    formatDate date = String.mk
      [Nat.digitChar (date.fullYear.toNat / 1000), Nat.digitChar (date.fullYear.toNat / 100 % 10),
       Nat.digitChar (date.fullYear.toNat / 10 % 10), Nat.digitChar (date.fullYear.toNat % 10),
       '-', Nat.digitChar ((date.month + 1) / 10), Nat.digitChar ((date.month + 1) % 10),
       '-', Nat.digitChar (date.date / 10), Nat.digitChar (date.date % 10)] := by
  obtain ⟨h1, h2, h3, h4, h5⟩ := h
  have hy : intToString date.fullYear = Nat.repr date.fullYear.toNat := by
    unfold intToString
    rw [if_neg (by omega)]
  unfold formatDate
  simp only [hy, repr_four_digits date.fullYear.toNat (by omega) (by omega),
    pad_two_digits (date.month + 1) (by omega), pad_two_digits date.date (by omega)]
  rfl

/-- C15, as stated, fails for years outside 1000 to 9999, which are printed without padding:
1 January 999 gives `999-01-01` (9 characters) and 1 January 10000 gives `10000-01-01`
(11 characters), and neither file name has the form `trending-YYYY-MM-DD.md`. -/
theorem formatDate_year_not_padded :
    formatDate { fullYear := 999, month := 0, date := 1 } = "999-01-01" ∧
    (formatDate { fullYear := 999, month := 0, date := 1 }).length = 9 ∧
    isReportName (reportFileName { fullYear := 999, month := 0, date := 1 }) = false ∧
    formatDate { fullYear := 10000, month := 0, date := 1 } = "10000-01-01" ∧
    isReportName (reportFileName { fullYear := 10000, month := 0, date := 1 }) = false := by
  decide

/-- A name built from eight characters around the fixed parts has the report form exactly
when the eight characters are digits -/
theorem isReportName_mk (a b c d e f g h : Char) :
    isReportName ("trending-" ++ String.mk [a, b, c, d, '-', e, f, '-', g, h] ++ ".md")
      = [a, b, c, d, e, f, g, h].all Char.isDigit := by
  rfl

/-- C15 (amended): for every calendar date whose year is from 1000 to 9999, `formatDate`
returns the zero-padded form `YYYY-MM-DD`: the four digits of the year, a hyphen, the two
digits of the month number, a hyphen and the two digits of the day, 10 characters in all,
and the report file name has the form `trending-YYYY-MM-DD.md`. -/
theorem formatDate_zero_padded (date : CalendarDate) (h : date.fourDigitYear) :
    formatDate date = String.mk
      [Nat.digitChar (date.fullYear.toNat / 1000), Nat.digitChar (date.fullYear.toNat / 100 % 10),
       Nat.digitChar (date.fullYear.toNat / 10 % 10), Nat.digitChar (date.fullYear.toNat % 10),
       '-', Nat.digitChar ((date.month + 1) / 10), Nat.digitChar ((date.month + 1) % 10),
       '-', Nat.digitChar (date.date / 10), Nat.digitChar (date.date % 10)] ∧
    (formatDate date).length = 10 ∧
    isReportName (reportFileName date) = true := by
  have heq := formatDate_eq date h
  obtain ⟨h1, h2, h3, h4, h5⟩ := h
  have hd : ∀ d, d < 10 → (Nat.digitChar d).isDigit = true := fun d hd => (digitChar_spec d hd).1
  refine ⟨heq, ?_, ?_⟩
  · rw [heq]
    rfl
  · unfold reportFileName
    rw [heq, isReportName_mk]
    simp only [List.all_cons, List.all_nil, Bool.and_true, Bool.and_eq_true]
    exact ⟨hd _ (by omega), hd _ (by omega), hd _ (by omega), hd _ (by omega), hd _ (by omega),
      hd _ (by omega), hd _ (by omega), hd _ (by omega)⟩

/-- Witness of C15 (amended): the date of the repository test, 15 January 2024. -/
theorem formatDate_zero_padded_witness :
    formatDate { fullYear := 2024, month := 0, date := 15 } = "2024-01-15" ∧
    isReportName (reportFileName { fullYear := 2024, month := 0, date := 15 }) = true :=
  ⟨(formatDate_zero_padded { fullYear := 2024, month := 0, date := 15 }
      (by unfold CalendarDate.fourDigitYear; decide)).1,
   (formatDate_zero_padded { fullYear := 2024, month := 0, date := 15 }
      (by unfold CalendarDate.fourDigitYear; decide)).2.2⟩

/-- The code units of a concatenation -/
theorem codeUnits_append (a b : String) : codeUnits (a ++ b) = codeUnits a ++ codeUnits b := by
  simp [codeUnits, String.data_append, List.flatMap_append]

/-- A common beginning does not change the code-unit order -/
theorem unitsLe_append_left (p a b : List Nat) : unitsLe (p ++ a) (p ++ b) = unitsLe a b := by
  induction p with
  | nil => rfl
  | cons x p ih => simp [unitsLe, ih]

/-- The code-unit order is reflexive -/
theorem unitsLe_refl (a : List Nat) : unitsLe a a = true := by
  induction a with
  | nil => rfl
  | cons x a ih => simp [unitsLe, ih]

/-- The code units of the report file name of a date with a four-digit year -/
theorem reportFileName_units (date : CalendarDate) (h : date.fourDigitYear) :
    codeUnits (reportFileName date) =
      [116, 114, 101, 110, 100, 105, 110, 103, 45] ++
      ([48 + date.fullYear.toNat / 1000, 48 + date.fullYear.toNat / 100 % 10,
        48 + date.fullYear.toNat / 10 % 10, 48 + date.fullYear.toNat % 10, 45,
        48 + (date.month + 1) / 10, 48 + (date.month + 1) % 10, 45,
        48 + date.date / 10, 48 + date.date % 10] ++ [46, 109, 100]) := by
  have heq := formatDate_eq date h
  obtain ⟨h1, h2, h3, h4, h5⟩ := h
  have hu : ∀ d, d < 10 → (if (Nat.digitChar d).toNat < 65536 then [(Nat.digitChar d).toNat]
      else [55296 + ((Nat.digitChar d).toNat - 65536) / 1024,
            56320 + ((Nat.digitChar d).toNat - 65536) % 1024]) = [48 + d] := by
    intro d hd
    rw [(digitChar_spec d hd).2, if_pos (by omega)]
  unfold reportFileName
  rw [codeUnits_append, codeUnits_append, heq]
  have e1 : codeUnits "trending-" = [116, 114, 101, 110, 100, 105, 110, 103, 45] := by decide
  have e2 : codeUnits ".md" = [46, 109, 100] := by decide
  rw [e1, e2, List.append_assoc]
  congr 2
  simp only [codeUnits, List.flatMap_cons, List.flatMap_nil, hu _ (show date.fullYear.toNat / 1000 < 10 by omega),
    hu _ (show date.fullYear.toNat / 100 % 10 < 10 by omega),
    hu _ (show date.fullYear.toNat / 10 % 10 < 10 by omega),
    hu _ (show date.fullYear.toNat % 10 < 10 by omega),
    hu _ (show (date.month + 1) / 10 < 10 by omega), hu _ (show (date.month + 1) % 10 < 10 by omega),
    hu _ (show date.date / 10 < 10 by omega), hu _ (show date.date % 10 < 10 by omega)]
  rfl
/-- Two-digit blocks compare like the numbers they print -/
theorem two_digit_lt (v w : Nat) (h : v < w) (r s : List Nat) :
    unitsLe ((48 + v / 10) :: (48 + v % 10) :: r) ((48 + w / 10) :: (48 + w % 10) :: s) = true ∧
    unitsLe ((48 + w / 10) :: (48 + w % 10) :: s) ((48 + v / 10) :: (48 + v % 10) :: r)
      = false := by
  constructor
  · simp only [unitsLe, Bool.or_eq_true, decide_eq_true_eq, Bool.and_eq_true, beq_iff_eq]
    omega
  · rw [Bool.eq_false_iff]
    simp only [unitsLe, Bool.or_eq_true, decide_eq_true_eq, Bool.and_eq_true, beq_iff_eq, ne_eq]
    omega

/-- Four-digit blocks compare like the numbers they print -/
theorem four_digit_lt (v w : Nat) (h : v < w) (r s : List Nat) :
    unitsLe ((48 + v / 1000) :: (48 + v / 100 % 10) :: (48 + v / 10 % 10) :: (48 + v % 10) :: r)
      ((48 + w / 1000) :: (48 + w / 100 % 10) :: (48 + w / 10 % 10) :: (48 + w % 10) :: s)
      = true ∧
    unitsLe ((48 + w / 1000) :: (48 + w / 100 % 10) :: (48 + w / 10 % 10) :: (48 + w % 10) :: s)
      ((48 + v / 1000) :: (48 + v / 100 % 10) :: (48 + v / 10 % 10) :: (48 + v % 10) :: r)
      = false := by
  constructor
  · simp only [unitsLe, Bool.or_eq_true, decide_eq_true_eq, Bool.and_eq_true, beq_iff_eq]
    omega
  · rw [Bool.eq_false_iff]
    simp only [unitsLe, Bool.or_eq_true, decide_eq_true_eq, Bool.and_eq_true, beq_iff_eq, ne_eq]
    omega

/-- The digit blocks of year, month and day, with their hyphens, compare like the dates -/
theorem date_units_lt (y₁ y₂ m₁ m₂ e₁ e₂ : Nat) (t : List Nat)
    (h : y₁ < y₂ ∨ (y₁ = y₂ ∧ (m₁ < m₂ ∨ (m₁ = m₂ ∧ e₁ < e₂)))) :
    unitsLe ([48 + y₁ / 1000, 48 + y₁ / 100 % 10, 48 + y₁ / 10 % 10, 48 + y₁ % 10, 45,
        48 + m₁ / 10, 48 + m₁ % 10, 45, 48 + e₁ / 10, 48 + e₁ % 10] ++ t)
      ([48 + y₂ / 1000, 48 + y₂ / 100 % 10, 48 + y₂ / 10 % 10, 48 + y₂ % 10, 45,
        48 + m₂ / 10, 48 + m₂ % 10, 45, 48 + e₂ / 10, 48 + e₂ % 10] ++ t) = true ∧
    unitsLe ([48 + y₂ / 1000, 48 + y₂ / 100 % 10, 48 + y₂ / 10 % 10, 48 + y₂ % 10, 45,
        48 + m₂ / 10, 48 + m₂ % 10, 45, 48 + e₂ / 10, 48 + e₂ % 10] ++ t)
      ([48 + y₁ / 1000, 48 + y₁ / 100 % 10, 48 + y₁ / 10 % 10, 48 + y₁ % 10, 45,
        48 + m₁ / 10, 48 + m₁ % 10, 45, 48 + e₁ / 10, 48 + e₁ % 10] ++ t) = false := by
  rcases h with hy | ⟨rfl, hm | ⟨rfl, he⟩⟩
  · exact four_digit_lt y₁ y₂ hy _ _
  · have p := unitsLe_append_left
      [48 + y₁ / 1000, 48 + y₁ / 100 % 10, 48 + y₁ / 10 % 10, 48 + y₁ % 10, 45]
    simp only [List.cons_append, List.nil_append] at p ⊢
    rw [p, p]
    exact two_digit_lt m₁ m₂ hm _ _
  · have p := unitsLe_append_left
      [48 + y₁ / 1000, 48 + y₁ / 100 % 10, 48 + y₁ / 10 % 10, 48 + y₁ % 10, 45,
       48 + m₁ / 10, 48 + m₁ % 10, 45]
    simp only [List.cons_append, List.nil_append] at p ⊢
    rw [p, p]
    exact two_digit_lt e₁ e₂ he _ _
/-- In a list ordered by `R`, of two distinct members the one that may not follow the other
comes first -/
theorem pair_sublist_of_pairwise {α : Type} (R : α → α → Prop) (l : List α) (x y : α)
    (hpw : l.Pairwise R) (hx : x ∈ l) (hy : y ∈ l) (hne : x ≠ y) (hnot : ¬ R y x) :
    [x, y].Sublist l := by
  induction l with
  | nil => cases hx
  | cons a t ih =>
    obtain ⟨hhead, htail⟩ := List.pairwise_cons.mp hpw
    by_cases hax : a = x
    · subst hax
      rcases List.mem_cons.mp hy with h | h
      · exact absurd h.symm hne
      · exact List.Sublist.cons₂ _ (List.singleton_sublist.mpr h)
    · have hxt : x ∈ t := by
        rcases List.mem_cons.mp hx with h | h
        · exact absurd h.symm hax
        · exact h
      rcases List.mem_cons.mp hy with h | h
      · subst h
        exact absurd (hhead x hxt) hnot
      · exact List.Sublist.cons _ (ih htail hxt h)

/-- A report file name ends in `.md` -/
theorem reportFileName_md (date : CalendarDate) :
    ".md".data.isSuffixOf (reportFileName date).data = true := by
  rw [List.isSuffixOf_iff_suffix]
  unfold reportFileName
  rw [String.data_append]
  exact List.suffix_append _ _

/-- C16: for two calendar dates with four-digit years, the file name of the earlier one is
strictly smaller than that of the later one in the UTF-16 code-unit order used by `sort()`;
hence the two names differ, and in the listing of any directory holding both, the name of
the later date comes before the name of the earlier one. -/
theorem file_names_sort_by_date (d₁ d₂ : CalendarDate) (h₁ : d₁.fourDigitYear)
    (h₂ : d₂.fourDigitYear) (hlt : d₁.before d₂) :
    jsStringLe (reportFileName d₁) (reportFileName d₂) = true ∧
    jsStringLe (reportFileName d₂) (reportFileName d₁) = false ∧
    reportFileName d₁ ≠ reportFileName d₂ ∧
    ∀ entries : List String, reportFileName d₁ ∈ entries → reportFileName d₂ ∈ entries →
      [reportFileName d₂, reportFileName d₁].Sublist (listedNames entries) := by
  have hboth : unitsLe (codeUnits (reportFileName d₁)) (codeUnits (reportFileName d₂)) = true ∧
      unitsLe (codeUnits (reportFileName d₂)) (codeUnits (reportFileName d₁)) = false := by
    rw [reportFileName_units d₁ h₁, reportFileName_units d₂ h₂, unitsLe_append_left,
      unitsLe_append_left]
    apply date_units_lt
    obtain ⟨a1, a2, a3, a4, a5⟩ := h₁
    obtain ⟨b1, b2, b3, b4, b5⟩ := h₂
    unfold CalendarDate.before at hlt
    omega
  have hle : jsStringLe (reportFileName d₁) (reportFileName d₂) = true := hboth.1
  have hnle : jsStringLe (reportFileName d₂) (reportFileName d₁) = false := hboth.2
  have hne : reportFileName d₁ ≠ reportFileName d₂ := by
    intro heq
    rw [heq] at hnle
    have := unitsLe_refl (codeUnits (reportFileName d₂))
    unfold jsStringLe at hnle
    rw [this] at hnle
    cases hnle
  refine ⟨hle, hnle, hne, ?_⟩
  intro entries hm₁ hm₂
  apply pair_sublist_of_pairwise (fun a b => jsStringLe b a = true) _ _ _
    (listedNames_sorted entries)
  · exact (mem_listedNames entries _).mpr ⟨hm₂, reportFileName_md d₂⟩
  · exact (mem_listedNames entries _).mpr ⟨hm₁, reportFileName_md d₁⟩
  · exact fun h => hne h.symm
  · rw [hnle]
    exact Bool.false_ne_true

/-- Witness of C16: 31 December 2023 and 1 January 2024. -/
theorem file_names_sort_by_date_witness :
    jsStringLe (reportFileName { fullYear := 2023, month := 11, date := 31 })
      (reportFileName { fullYear := 2024, month := 0, date := 1 }) = true ∧
    jsStringLe (reportFileName { fullYear := 2024, month := 0, date := 1 })
      (reportFileName { fullYear := 2023, month := 11, date := 31 }) = false :=
  ⟨(file_names_sort_by_date { fullYear := 2023, month := 11, date := 31 }
      { fullYear := 2024, month := 0, date := 1 }
      (by unfold CalendarDate.fourDigitYear; decide)
      (by unfold CalendarDate.fourDigitYear; decide)
      (by unfold CalendarDate.before; decide)).1,
   (file_names_sort_by_date { fullYear := 2023, month := 11, date := 31 }
      { fullYear := 2024, month := 0, date := 1 }
      (by unfold CalendarDate.fourDigitYear; decide)
      (by unfold CalendarDate.fourDigitYear; decide)
      (by unfold CalendarDate.before; decide)).2.1⟩

/-- The loop of `getLanguageStats` counts the carried languages one after the other -/
theorem foldl_countLanguage (projects : List Project) (init : List (String × CountValue)) :
    projects.foldl (fun acc project =>
      if project.language.data.isEmpty then acc else countLanguage acc project.language) init
    = (carriedLanguages projects).foldl countLanguage init := by
  induction projects generalizing init with
  | nil => rfl
  | cons p ps ih =>
    rw [List.foldl_cons, ih]
    by_cases h : p.language.data.isEmpty = true
    · simp [carriedLanguages, h]
    · simp [carriedLanguages, h]

/-- Reading a key of an object whose own keys are `keys`, each holding `f key` -/
theorem lookup_map_pair (f : String → CountValue) (keys : List String) (l : String) :
    (keys.map (fun k => (k, f k))).lookup l = if l ∈ keys then some (f l) else none := by
  induction keys with
  | nil => rfl
  | cons k ks ih =>
    by_cases h : l = k
    · subst h
      simp [List.lookup]
    · have h' : (l == k) = false := by simpa using h
      simp only [List.map_cons, List.lookup, h', ih, List.mem_cons, h, false_or]

/-- Writing a key that the object does not have adds it last -/
theorem setProperty_not_mem (f : String → CountValue) (keys : List String) (l : String)
    (v : CountValue) (hl : l ∉ keys) :
    setProperty (keys.map (fun k => (k, f k))) l v = keys.map (fun k => (k, f k)) ++ [(l, v)] := by
  induction keys with
  | nil => rfl
  | cons k ks ih =>
    have hk : k ≠ l := fun h => hl (h ▸ List.mem_cons_self _ _)
    have hks : l ∉ ks := fun h => hl (List.mem_cons_of_mem _ h)
    simp only [List.map_cons, setProperty, if_neg hk, ih hks, List.cons_append]

/-- Writing a key that the object has overwrites it in place -/
theorem setProperty_mem (f : String → CountValue) (keys : List String) (l : String)
    (v : CountValue) (hl : l ∈ keys) (hnd : keys.Nodup) :
    setProperty (keys.map (fun k => (k, f k))) l v
      = keys.map (fun k => (k, if k = l then v else f k)) := by
  induction keys with
  | nil => cases hl
  | cons k ks ih =>
    obtain ⟨hk, hks⟩ := List.nodup_cons.mp hnd
    by_cases h : k = l
    · subst h
      simp only [List.map_cons, setProperty, if_true, List.cons.injEq, true_and]
      apply List.map_congr_left
      intro x hx
      have : x ≠ k := fun e => hk (e ▸ hx)
      simp [this]
    · have hl' : l ∈ ks := by
        rcases List.mem_cons.mp hl with e | e
        · exact absurd e.symm h
        · exact e
      simp only [List.map_cons, setProperty, if_neg h, ih hl' hks]

/-- The own properties of `languageCount` after counting a list of ordinary languages: one
per distinct language, in first-seen order, holding the number of occurrences -/
theorem counted_languages (seen : List String)
    (hplain : ∀ l ∈ seen, ordinaryKey l = true) :
    ∃ keys : List String,
      seen.foldl countLanguage [] = keys.map (fun k => (k, CountValue.number (seen.count k))) ∧
      keys.Nodup ∧ (∀ k, k ∈ keys ↔ k ∈ seen) ∧
      keys.Pairwise (fun a b => seen.indexOf a < seen.indexOf b) := by
  induction seen using List.reverseRecOn with
  | nil => exact ⟨[], rfl, List.nodup_nil, fun k => Iff.rfl, List.Pairwise.nil⟩
  | append_singleton seen l ih =>
    obtain ⟨keys, hfold, hnd, hmem, hpw⟩ :=
      ih (fun x hx => hplain x (List.mem_append_left _ hx))
    have hl := hplain l (List.mem_append_right _ (List.mem_singleton_self l))
    simp only [ordinaryKey, Bool.and_eq_true, Bool.not_eq_true', bne_iff_ne, ne_eq,
      List.contains_eq_any_beq, List.any_eq_false, beq_iff_eq] at hl
    obtain ⟨⟨_, hproto⟩, hinh⟩ := hl
    have hinh' : l ∉ inheritedFunctions := fun h => hinh l h rfl
    rw [List.foldl_append, List.foldl_cons, List.foldl_nil, hfold]
    unfold countLanguage
    rw [if_neg hproto, lookup_map_pair]
    by_cases hin : l ∈ keys
    · refine ⟨keys, ?_, hnd, ?_, ?_⟩
      · simp only [if_pos hin]
        rw [setProperty_mem _ _ _ _ hin hnd]
        apply List.map_congr_left
        intro k _
        by_cases hkl : k = l
        · subst hkl
          simp [List.count_append]
        · have : (l == k) = false := by simpa using fun e => hkl e.symm
          simp [hkl, List.count_append, List.count_singleton, this]
      · intro k
        rw [hmem k, List.mem_append, List.mem_singleton]
        constructor
        · exact Or.inl
        · rintro (h | h)
          · exact h
          · exact h ▸ (hmem l).mp hin
      · refine hpw.imp_of_mem ?_
        intro a b ha hb hab
        rw [List.indexOf_append_of_mem ((hmem a).mp ha),
          List.indexOf_append_of_mem ((hmem b).mp hb)]
        exact hab
    · have hns : l ∉ seen := fun h => hin ((hmem l).mpr h)
      refine ⟨keys ++ [l], ?_, ?_, ?_, ?_⟩
      · simp only [if_neg hin, if_neg hinh']
        rw [setProperty_not_mem _ _ _ _ hin, List.map_append]
        congr 1
        · apply List.map_congr_left
          intro k hk
          have hkl : k ≠ l := fun e => hin (e ▸ hk)
          have : (l == k) = false := by simpa using fun e => hkl e.symm
          simp [List.count_append, List.count_singleton, this]
        · simp [List.count_append, List.count_eq_zero_of_not_mem hns]
      · rw [List.nodup_append]
        refine ⟨hnd, List.nodup_singleton l, ?_⟩
        intro x hx hx'
        rw [List.mem_singleton] at hx'
        exact hin (hx' ▸ hx)
      · intro k
        simp only [List.mem_append, List.mem_singleton, hmem k]
      · rw [List.pairwise_append]
        refine ⟨?_, List.pairwise_singleton _ _, ?_⟩
        · refine hpw.imp_of_mem ?_
          intro a b ha hb hab
          rw [List.indexOf_append_of_mem ((hmem a).mp ha),
            List.indexOf_append_of_mem ((hmem b).mp hb)]
          exact hab
        · intro a ha b hb
          rw [List.mem_singleton] at hb
          subst hb
          rw [List.indexOf_append_of_mem ((hmem a).mp ha),
            List.indexOf_append_of_not_mem hns]
          have := List.indexOf_lt_length.mpr ((hmem a).mp ha)
          omega
/-- Without array-index names, `Object.entries` lists the properties in creation order -/
theorem ownEntries_eq_self (obj : List (String × CountValue))
    (h : ∀ e ∈ obj, isArrayIndex e.1 = false) : ownEntries obj = obj := by
  unfold ownEntries
  have h1 : obj.filter (fun e => isArrayIndex e.1) = [] := by
    rw [List.filter_eq_nil_iff]
    intro e he
    simp [h e he]
  have h2 : obj.filter (fun e => !isArrayIndex e.1) = obj := by
    rw [List.filter_eq_self]
    intro e he
    simp [h e he]
  rw [h1, h2]
  rfl

/-- Inserting an element that precedes, in the input order `idx`, all elements of a list
sorted by descending `key` with ties in input order keeps the list so sorted -/
theorem orderedInsert_pairwise {α : Type} (r : α → α → Prop) [DecidableRel r]
    (key idx : α → Nat) (a : α) (s : List α)
    (hr : ∀ b ∈ s, r a b ↔ key b ≤ key a)
    (hs : s.Pairwise (fun x y => key y < key x ∨ (key y = key x ∧ idx x < idx y)))
    (hidx : ∀ y ∈ s, idx a < idx y) :
    (s.orderedInsert r a).Pairwise
      (fun x y => key y < key x ∨ (key y = key x ∧ idx x < idx y)) := by
  induction s with
  | nil => simp
  | cons b s ih =>
    obtain ⟨hb, hs'⟩ := List.pairwise_cons.mp hs
    by_cases hab : r a b
    · rw [List.orderedInsert, if_pos hab]
      refine List.pairwise_cons.mpr ⟨?_, hs⟩
      intro y hy
      have hba : key b ≤ key a := (hr b (List.mem_cons_self _ _)).mp hab
      have hiy := hidx y hy
      rcases List.mem_cons.mp hy with rfl | hy'
      · omega
      · have := hb y hy'
        omega
    · rw [List.orderedInsert, if_neg hab]
      have hba : ¬ key b ≤ key a := fun h => hab ((hr b (List.mem_cons_self _ _)).mpr h)
      refine List.pairwise_cons.mpr ⟨?_, ?_⟩
      · intro z hz
        rcases (List.mem_orderedInsert r).mp hz with rfl | hz'
        · omega
        · exact hb z hz'
      · exact ih (fun y hy => hr y (List.mem_cons_of_mem _ hy)) hs'
          (fun y hy => hidx y (List.mem_cons_of_mem _ hy))

/-- A stable sort by descending `key` of a list given in the order `idx` orders it by
descending `key` with ties in the order `idx` -/
theorem insertionSort_pairwise {α : Type} (r : α → α → Prop) [DecidableRel r]
    (key idx : α → Nat) (l : List α)
    (hr : ∀ a ∈ l, ∀ b ∈ l, r a b ↔ key b ≤ key a)
    (hl : l.Pairwise (fun x y => idx x < idx y)) :
    (l.insertionSort r).Pairwise
      (fun x y => key y < key x ∨ (key y = key x ∧ idx x < idx y)) := by
  induction l with
  | nil => simp
  | cons a l ih =>
    obtain ⟨ha, hl'⟩ := List.pairwise_cons.mp hl
    rw [List.insertionSort]
    apply orderedInsert_pairwise
    · intro b hb
      exact hr a (List.mem_cons_self _ _) b
        (List.mem_cons_of_mem _ ((List.mem_insertionSort r).mp hb))
    · exact ih (fun x hx y hy => hr x (List.mem_cons_of_mem _ hx) y (List.mem_cons_of_mem _ hy))
        hl'
    · intro y hy
      exact ha y ((List.mem_insertionSort r).mp hy)
/-- C12, as stated, fails for languages that are not plain keys of the object
`languageCount`: with the languages `b` then `1`, the tie is listed with `1` first, because
`Object.entries` puts array-index names first; a record whose language is `__proto__` is
not counted at all, so the result is empty although a record carries a language; for the
language `constructor` the value listed is the source text of the function `Object`
followed by `1`, not the number of records; and with the languages `x`, `y` twice,
`toString` and `z` three times the value of `toString` is such a text as well, listed
last. -/
theorem language_stats_odd_keys :
    getLanguageStats [sampleProject "b" 1 1, sampleProject "1" 1 1]
      = [("1", .number 1), ("b", .number 1)] ∧
    getLanguageStats [sampleProject "__proto__" 1 1] = [] ∧
    getLanguageStats [sampleProject "constructor" 1 1]
      = [("constructor", .text "function Object() \x7b [native code] \x7d1")] ∧
    getLanguageStats [sampleProject "x" 1 1, sampleProject "y" 1 1, sampleProject "y" 1 1,
      sampleProject "toString" 1 1, sampleProject "z" 1 1, sampleProject "z" 1 1,
      sampleProject "z" 1 1]
      = [("z", .number 3), ("y", .number 2), ("x", .number 1),
         ("toString", .text "function toString() \x7b [native code] \x7d1")] := by
  decide

/-- C12 (amended): when every non-empty language of the records is an ordinary key (not an
array index such as `1`, not a name inherited from `Object.prototype`), `getLanguageStats`
returns at most five pairs with pairwise distinct non-empty languages, each with the number
of records carrying that language; the pairs are in descending order of count with ties in
first-seen order, every language left out has a count no greater than every listed one, and
the result is empty exactly when no record carries a non-empty language. -/
theorem language_stats_top_five (projects : List Project)
    (hplain : ∀ l ∈ carriedLanguages projects, ordinaryKey l = true) :
    (getLanguageStats projects).length ≤ 5 ∧
    ((getLanguageStats projects).map Prod.fst).Nodup ∧
    (∀ e ∈ getLanguageStats projects, e.1 ≠ "" ∧ e.1 ∈ carriedLanguages projects ∧
      e.2 = .number ((carriedLanguages projects).count e.1)) ∧
    (getLanguageStats projects).Pairwise (fun a b =>
      (carriedLanguages projects).count b.1 < (carriedLanguages projects).count a.1 ∨
      ((carriedLanguages projects).count b.1 = (carriedLanguages projects).count a.1 ∧
        (carriedLanguages projects).indexOf a.1 < (carriedLanguages projects).indexOf b.1)) ∧
    (∀ l ∈ carriedLanguages projects, l ∉ (getLanguageStats projects).map Prod.fst →
      ∀ e ∈ getLanguageStats projects,
        (carriedLanguages projects).count l ≤ (carriedLanguages projects).count e.1) ∧
    (getLanguageStats projects = [] ↔ carriedLanguages projects = []) := by
  obtain ⟨keys, hfold, hnd, hmem, hpw⟩ := counted_languages (carriedLanguages projects) hplain
  generalize hlangs : carriedLanguages projects = langs at *
  have hne : ∀ l ∈ langs, l ≠ "" := by
    intro l hl
    rw [← hlangs] at hl
    simp only [carriedLanguages, List.mem_filter, Bool.not_eq_true'] at hl
    intro h
    rw [h] at hl
    exact absurd hl.2 (by decide)
  -- the entries that are sorted
  have hentries : ownEntries (langs.foldl countLanguage [])
      = keys.map (fun k => (k, CountValue.number (langs.count k))) := by
    rw [hfold]
    apply ownEntries_eq_self
    intro e he
    obtain ⟨k, hk, rfl⟩ := List.mem_map.mp he
    have := hplain k ((hmem k).mp hk)
    simp only [ordinaryKey, Bool.and_eq_true, Bool.not_eq_true'] at this
    exact this.1.1
  have hstats : getLanguageStats projects
      = ((keys.map (fun k => (k, CountValue.number (langs.count k)))).insertionSort
          (fun x y => staysBefore x y = true)).take 5 := by
    have hall : (keys.map (fun k => (k, CountValue.number (langs.count k)))).all
        (fun e => e.2.isNumber) = true := by
      rw [List.all_eq_true]
      intro e he
      obtain ⟨k, _, rfl⟩ := List.mem_map.mp he
      rfl
    unfold getLanguageStats
    simp only [foldl_countLanguage, hlangs, hentries, hall, if_true]
  set E := keys.map (fun k => (k, CountValue.number (langs.count k))) with hE
  set sorted := E.insertionSort (fun x y => staysBefore x y = true) with hsorted
  have hEmem : ∀ e ∈ E, e.1 ∈ langs ∧ e.2 = .number (langs.count e.1) := by
    intro e he
    obtain ⟨k, hk, rfl⟩ := List.mem_map.mp he
    exact ⟨(hmem k).mp hk, rfl⟩
  have hperm : sorted.Perm E := List.perm_insertionSort _ _
  have hsmem : ∀ e ∈ sorted, e.1 ∈ langs ∧ e.2 = .number (langs.count e.1) :=
    fun e he => hEmem e (hperm.mem_iff.mp he)
  have hEfst : E.map Prod.fst = keys := by
    rw [hE, List.map_map]
    exact List.map_id' _
  have hsnd : (sorted.map Prod.fst).Nodup := by
    rw [(hperm.map Prod.fst).nodup_iff, hEfst]
    exact hnd
  have hspw : sorted.Pairwise (fun a b =>
      langs.count b.1 < langs.count a.1 ∨
      (langs.count b.1 = langs.count a.1 ∧ langs.indexOf a.1 < langs.indexOf b.1)) := by
    apply insertionSort_pairwise (fun x y => staysBefore x y = true)
      (fun e => langs.count e.1) (fun e => langs.indexOf e.1)
    · intro a ha b hb
      simp only [staysBefore, (hEmem a ha).2, (hEmem b hb).2, decide_eq_true_eq]
    · rw [hE, List.pairwise_map]
      exact hpw
  have htake : (sorted.take 5).Sublist sorted := List.take_sublist _ _
  rw [hstats]
  refine ⟨?_, ?_, ?_, ?_, ?_, ?_⟩
  · exact List.length_take_le _ _
  · exact (htake.map Prod.fst).nodup hsnd
  · intro e he
    have h := hsmem e (htake.subset he)
    exact ⟨hne _ h.1, h.1, h.2⟩
  · exact hspw.sublist htake
  · intro l hl hnot e he
    have hlk : l ∈ keys := (hmem l).mpr hl
    have hlE : (l, CountValue.number (langs.count l)) ∈ E :=
      List.mem_map.mpr ⟨l, hlk, rfl⟩
    have hls : (l, CountValue.number (langs.count l)) ∈ sorted := hperm.mem_iff.mpr hlE
    rw [← List.take_append_drop 5 sorted] at hls hspw
    rcases List.mem_append.mp hls with h | h
    · exact absurd (List.mem_map_of_mem Prod.fst h) hnot
    · have := (List.pairwise_append.mp hspw).2.2 e he _ h
      simp only at this
      omega
  · constructor
    · intro h
      have hs : sorted = [] := by
        cases hsd : sorted with
        | nil => rfl
        | cons x xs => rw [hsd] at h; simp at h
      have hE0 : E = [] := by
        have := hperm.length_eq
        rw [hs] at this
        exact List.length_eq_zero.mp this.symm
      have hk0 : keys = [] := by
        rw [← hEfst, hE0]
        rfl
      cases hl : langs with
      | nil => rfl
      | cons a t =>
        have : a ∈ keys := (hmem a).mpr (hl ▸ List.mem_cons_self _ _)
        rw [hk0] at this
        cases this
    · intro h
      have hk0 : keys = [] := by
        cases hk : keys with
        | nil => rfl
        | cons a t =>
          have : a ∈ langs := (hmem a).mp (hk ▸ List.mem_cons_self _ _)
          rw [h] at this
          cases this
      have hE0 : E = [] := by rw [hE, hk0]; rfl
      have hs : sorted = [] := by rw [hsorted, hE0]; rfl
      rw [hs]
      rfl

/-- Witness of C12 (amended): the five records of the repository test `应该统计语言分布`. -/
theorem language_stats_top_five_witness :
    (getLanguageStats [sampleProject "JavaScript" 1 1, sampleProject "JavaScript" 1 1,
      sampleProject "TypeScript" 1 1, sampleProject "Python" 1 1,
      sampleProject "JavaScript" 1 1]).length ≤ 5 ∧
    getLanguageStats [sampleProject "JavaScript" 1 1, sampleProject "JavaScript" 1 1,
      sampleProject "TypeScript" 1 1, sampleProject "Python" 1 1,
      sampleProject "JavaScript" 1 1]
      = [("JavaScript", .number 3), ("TypeScript", .number 1), ("Python", .number 1)] :=
  ⟨(language_stats_top_five [sampleProject "JavaScript" 1 1, sampleProject "JavaScript" 1 1,
      sampleProject "TypeScript" 1 1, sampleProject "Python" 1 1,
      sampleProject "JavaScript" 1 1] (by decide)).1, by decide⟩

/-! ### The number formatter (claim C11) -/

/-- The rounded quotient is within half a unit of the fraction -/
theorem roundHalfEven_bounds (x y : Nat) (hy : 0 < y) :
    2 * (roundHalfEven x y * y) ≤ 2 * x + y ∧ 2 * x ≤ 2 * (roundHalfEven x y * y) + y := by
  have hx : y * (x / y) + x % y = x := Nat.div_add_mod x y
  have hr : x % y < y := Nat.mod_lt x hy
  have hq : (x / y + 1) * y = y * (x / y) + y := by ring
  have hq0 : x / y * y = y * (x / y) := by ring
  unfold roundHalfEven
  simp only []
  split_ifs <;> simp only [hq, hq0] <;> constructor <;> omega

/-- The binary logarithm is monotone -/
theorem floorLog2_mono (a b : Nat) (hb : 0 < b) (hba : b ≤ a) : floorLog2 b ≤ floorLog2 a := by
  obtain ⟨hlo, _⟩ := floorLog2_spec b (by omega)
  obtain ⟨_, hhi⟩ := floorLog2_spec a (by omega)
  have : 2 ^ floorLog2 b < 2 ^ (floorLog2 a + 1) := by omega
  have := (Nat.pow_lt_pow_iff_right (by norm_num : 1 < 2)).mp this
  omega

/-- The binary exponent of a fraction that is at least one -/
theorem binaryExponent_lower (a b : Nat) (hb : 0 < b) (hba : b ≤ a) :
    ∃ e : Nat, binaryExponent a b = (e : Int) ∧ b * 2 ^ e ≤ a ∧
      e + floorLog2 b ≤ floorLog2 a := by
  have hmono := floorLog2_mono a b hb hba
  obtain ⟨hblo, hbhi⟩ := floorLog2_spec b (by omega)
  obtain ⟨halo, hahi⟩ := floorLog2_spec a (by omega)
  obtain ⟨L, hL⟩ : ∃ L, floorLog2 a = floorLog2 b + L := ⟨floorLog2 a - floorLog2 b, by omega⟩
  have hl : (floorLog2 a : Int) - (floorLog2 b : Int) = (L : Int) := by omega
  unfold binaryExponent
  simp only [hl, Int.toNat_ofNat, Int.toNat_neg_nat, pow_zero, Nat.mul_one]
  by_cases hc : b * 2 ^ L ≤ a
  · exact ⟨L, by simp [hc], hc, by omega⟩
  · have hL0 : L ≠ 0 := by
      rintro rfl
      simp at hc; omega
    obtain ⟨M, rfl⟩ : ∃ M, L = M + 1 := ⟨L - 1, by omega⟩
    refine ⟨M, by simp [hc], ?_, by omega⟩
    have h1 : b * 2 ^ M < 2 ^ (floorLog2 b + 1) * 2 ^ M :=
      Nat.mul_lt_mul_of_pos_right hbhi (by positivity)
    have h2 : 2 ^ (floorLog2 b + 1) * 2 ^ M = 2 ^ floorLog2 a := by
      rw [← pow_add, hL]; congr 1; omega
    omega

/-- A fraction between one and `2 ^ 53` rounds to a scaled quotient -/
theorem roundToDouble_fraction (a b : Nat) (hb : 2 ≤ b) (hba : b ≤ a) (ha : a < 2 ^ 53) :
    ∃ s : Nat, b * 2 ^ 52 ≤ a * 2 ^ s ∧
      roundToDouble a b = normalize (roundHalfEven (a * 2 ^ s) b) s := by
  obtain ⟨e, he, hle, hlog⟩ := binaryExponent_lower a b (by omega) hba
  obtain ⟨halo, _⟩ := floorLog2_spec a (by omega)
  obtain ⟨_, hbhi⟩ := floorLog2_spec b (by omega)
  have hA : floorLog2 a < 53 :=
    (Nat.pow_lt_pow_iff_right (by norm_num : 1 < 2)).mp (lt_of_le_of_lt halo ha)
  have hB : floorLog2 b ≠ 0 := by
    intro h0
    rw [h0] at hbhi
    omega
  have he52 : e < 52 := by omega
  refine ⟨52 - e, ?_, ?_⟩
  · have h1 : b * 2 ^ e * 2 ^ (52 - e) ≤ a * 2 ^ (52 - e) := Nat.mul_le_mul_right _ hle
    have h2 : b * 2 ^ e * 2 ^ (52 - e) = b * 2 ^ 52 := by
      rw [Nat.mul_assoc, ← pow_add]; congr 2; omega
    omega
  · unfold roundToDouble
    have h0 : a ≠ 0 := by omega
    have hp : max ((e : Int) - 52) (-1074) = (e : Int) - 52 := by omega
    have hneg : ¬ (0 ≤ (e : Int) - 52) := by omega
    have htn : ((e : Int) - 52).toNat = 0 := by omega
    have hnt : (-((e : Int) - 52)).toNat = 52 - e := by omega
    simp only [if_neg h0, he, hp, if_neg hneg, htn, hnt, pow_zero, Nat.mul_one]

/-- The call `toFixed(1)` on a fraction over a power of two, before it is reduced -/
theorem toFixed1_normalize (m s : Nat) (hlt : m < 10 ^ 21 * 2 ^ s) :
    toFixed1 (normalize m s) =
      Nat.repr ((20 * m + 2 ^ s) / (2 * 2 ^ s) / 10) ++ "." ++
        Nat.repr ((20 * m + 2 ^ s) / (2 * 2 ^ s) % 10) := by
  induction s generalizing m with
  | zero =>
    have : ¬ (10 ^ 21 * 2 ^ 0 ≤ m) := by omega
    simp only [normalize, toFixed1, if_neg this]
  | succ s ih =>
    by_cases hm : m % 2 = 0
    · have h2 : m / 2 < 10 ^ 21 * 2 ^ s := by
        rw [pow_succ] at hlt; omega
      rw [normalize, if_pos hm, ih (m / 2) h2]
      have hdiv : (20 * (m / 2) + 2 ^ s) / (2 * 2 ^ s) = (20 * m + 2 ^ (s + 1)) / (2 * 2 ^ (s + 1)) := by
        have hm2 : m = 2 * (m / 2) := by omega
        have e1 : 20 * m + 2 ^ (s + 1) = 2 * (20 * (m / 2) + 2 ^ s) := by
          rw [pow_succ]; omega
        have e2 : 2 * 2 ^ (s + 1) = 2 * (2 * 2 ^ s) := by rw [pow_succ]; ring
        rw [e1, e2, Nat.mul_div_mul_left _ _ (by norm_num : 0 < 2)]
      rw [hdiv]
    · have : ¬ (10 ^ 21 * 2 ^ (s + 1) ≤ m) := by omega
      simp only [normalize, if_neg hm, toFixed1, if_neg this]
/-- The tenths kept by `toFixed(1)` on the rounded quotient `m / W` of `n / D`: they are the
half-up tenths of `n / D` unless `n / D` lies exactly between two tenths, and never more
than one tenth below them. -/
theorem tenths_of_rounded (n m W D : Nat) (hD : D = 1000 ∨ D = 1000000)
    (h1 : 2 * (m * D) ≤ 2 * (n * W) + D) (h2 : 2 * (n * W) ≤ 2 * (m * D) + D)
    (hW : D < 2 * W) :
    (n % (D / 10) ≠ D / 20 → (20 * m + W) / (2 * W) = (20 * n + D) / (2 * D)) ∧
    ((20 * m + W) / (2 * W) = (20 * n + D) / (2 * D) ∨
      (20 * m + W) / (2 * W) + 1 = (20 * n + D) / (2 * D)) := by
  have key : ∀ t Q, Q = W * t → 2 * Q ≤ 20 * m + W → 20 * m + W < 2 * Q + 2 * W →
      (20 * m + W) / (2 * W) = t := by
    intro t Q hQ a b
    apply Nat.div_eq_of_lt_le
    · have : t * (2 * W) = 2 * (W * t) := by ring
      omega
    · have : (t + 1) * (2 * W) = 2 * (W * t) + 2 * W := by ring
      omega
  obtain ⟨P, hP⟩ : ∃ P, P = n * W := ⟨_, rfl⟩
  rw [← hP] at h1 h2
  rcases hD with rfl | rfl
  · obtain ⟨h, hh⟩ : ∃ h, h = (20 * n + 1000) / (2 * 1000) := ⟨_, rfl⟩
    rw [← hh]
    have b1 : 200 * h ≤ 2 * n + 100 := by omega
    have b2 : 2 * n + 100 ≤ 200 * h + 198 := by omega
    have c1 := Nat.mul_le_mul_left W b1
    have c2 := Nat.mul_le_mul_left W b2
    have e1 : W * (200 * h) = 200 * (W * h) := by ring
    have e2 : W * (2 * n + 100) = 2 * P + 100 * W := by rw [hP]; ring
    have e3 : W * (200 * h + 198) = 200 * (W * h) + 198 * W := by ring
    rw [e1, e2] at c1
    rw [e2, e3] at c2
    have hi : 20 * m + W < 2 * (W * h) + 2 * W := by omega
    constructor
    · intro hne
      have b3 : 200 * h + 2 ≤ 2 * n + 100 := by omega
      have c3 := Nat.mul_le_mul_left W b3
      have e4 : W * (200 * h + 2) = 200 * (W * h) + 2 * W := by ring
      rw [e4, e2] at c3
      exact key h _ rfl (by omega) hi
    · by_cases hc : 2 * (W * h) ≤ 20 * m + W
      · exact Or.inl (key h _ rfl hc hi)
      · right
        have hpos : h ≠ 0 := by
          rintro rfl
          exact hc (by simp)
        obtain ⟨g, rfl⟩ : ∃ g, h = g + 1 := ⟨h - 1, by omega⟩
        have e5 : W * (g + 1) = W * g + W := by ring
        rw [e5] at c1 c2 hc
        rw [key g _ rfl (by omega) (by omega)]
  · obtain ⟨h, hh⟩ : ∃ h, h = (20 * n + 1000000) / (2 * 1000000) := ⟨_, rfl⟩
    rw [← hh]
    have b1 : 200000 * h ≤ 2 * n + 100000 := by omega
    have b2 : 2 * n + 100000 ≤ 200000 * h + 199998 := by omega
    have c1 := Nat.mul_le_mul_left W b1
    have c2 := Nat.mul_le_mul_left W b2
    have e1 : W * (200000 * h) = 200000 * (W * h) := by ring
    have e2 : W * (2 * n + 100000) = 2 * P + 100000 * W := by rw [hP]; ring
    have e3 : W * (200000 * h + 199998) = 200000 * (W * h) + 199998 * W := by ring
    rw [e1, e2] at c1
    rw [e2, e3] at c2
    have hi : 20 * m + W < 2 * (W * h) + 2 * W := by omega
    constructor
    · intro hne
      have b3 : 200000 * h + 2 ≤ 2 * n + 100000 := by omega
      have c3 := Nat.mul_le_mul_left W b3
      have e4 : W * (200000 * h + 2) = 200000 * (W * h) + 2 * W := by ring
      rw [e4, e2] at c3
      exact key h _ rfl (by omega) hi
    · by_cases hc : 2 * (W * h) ≤ 20 * m + W
      · exact Or.inl (key h _ rfl hc hi)
      · right
        have hpos : h ≠ 0 := by
          rintro rfl
          exact hc (by simp)
        obtain ⟨g, rfl⟩ : ∃ g, h = g + 1 := ⟨h - 1, by omega⟩
        have e5 : W * (g + 1) = W * g + W := by ring
        rw [e5] at c1 c2 hc
        rw [key g _ rfl (by omega) (by omega)]
/-- Division by ten finds the decimal logarithm when the fuel is at least the argument -/
theorem decadeFuel_spec (fuel n : Nat) (hfuel : n ≤ fuel) (hn : n ≠ 0) :
    10 ^ decadeFuel fuel n ≤ n ∧ n < 10 ^ (decadeFuel fuel n + 1) := by
  induction fuel generalizing n with
  | zero => omega
  | succ fuel ih =>
    unfold decadeFuel
    by_cases h2 : n < 10
    · simp [h2]; omega
    · simp only [h2, if_false]
      obtain ⟨h1, h3⟩ := ih (n / 10) (by omega) (by omega)
      rw [pow_succ, pow_succ] at *
      constructor <;> omega


/-- The digit search on a positive integer below `2 ^ 52` stops at the integer itself with
some of its trailing zeros removed. -/
theorem shortestDecimalFuel_integer (n e fuel digits : Nat) (hn : n < 2 ^ 52)
    (hge : 10 ^ e ≤ n) (hlt : n < 10 ^ (e + 1)) (hd : 1 ≤ digits) (hde : digits ≤ e + 1)
    (hfuel : e + 1 < digits + fuel) :
    ∃ z, z ≤ e ∧ 10 ^ z ∣ n ∧
      shortestDecimalFuel n 0 (e : Int) fuel digits = (n / 10 ^ z, (e : Int) + 1) := by
  induction fuel generalizing digits with
  | zero => omega
  | succ fuel ih =>
    obtain ⟨z, hz⟩ : ∃ z, e + 1 = digits + z := ⟨e + 1 - digits, by omega⟩
    have hj : (e : Int) - (digits : Int) + 1 = (z : Int) := by omega
    have hzpos : 0 < 10 ^ z := by positivity
    have hze : 10 ^ z ≤ 10 ^ e := Nat.pow_le_pow_right (by norm_num) (by omega)
    have hs : n / 10 ^ z * 10 ^ z ≤ n := Nat.div_mul_le_self n (10 ^ z)
    have hs1 : n < (n / 10 ^ z + 1) * 10 ^ z := by
      rw [Nat.mul_comm]; exact Nat.lt_mul_div_succ n hzpos
    have hs2 : (n / 10 ^ z + 1) * 10 ^ z < 2 ^ 53 := by
      have : (n / 10 ^ z + 1) * 10 ^ z = n / 10 ^ z * 10 ^ z + 10 ^ z := by ring
      have : (2 : Nat) ^ 53 = 2 * 2 ^ 52 := by norm_num
      omega
    have hlo := roundToDouble_exact (n / 10 ^ z * 10 ^ z) (by omega)
    have hhi := roundToDouble_exact ((n / 10 ^ z + 1) * 10 ^ z) hs2
    have hne : ¬ ((n / 10 ^ z + 1) * 10 ^ z = n) := by omega
    have hsd : n / 10 ^ z ≠ 10 ^ digits := by
      have : n / 10 ^ z < 10 ^ digits := by
        rw [Nat.div_lt_iff_lt_mul hzpos, ← pow_add, ← hz]; exact hlt
      omega
    rw [shortestDecimalFuel]
    simp only [hj, Int.toNat_ofNat, Int.toNat_neg_nat, pow_zero, Nat.mul_one, Nat.one_mul,
      hlo, hhi, JSNumber.finite.injEq, and_true, hne, decide_False, Bool.and_false,
      Bool.false_eq_true, if_false, hsd]
    by_cases hdiv : n / 10 ^ z * 10 ^ z = n
    · refine ⟨z, by omega, ⟨n / 10 ^ z, by rw [Nat.mul_comm]; exact hdiv.symm⟩, ?_⟩
      simp [hdiv]
    · have hz0 : z ≠ 0 := by
        rintro rfl
        simp at hdiv
      simp only [hdiv, decide_False, Bool.false_eq_true, if_false]
      exact ih (digits + 1) (by omega) (by omega) (by omega)
/-- The decimal string of a number below 1000 is its one, two or three digits -/
theorem repr_upto_three_digits (n : Nat) (h : n < 1000) :
    Nat.repr n =
      if n < 10 then String.mk [Nat.digitChar n]
      else if n < 100 then String.mk [Nat.digitChar (n / 10), Nat.digitChar (n % 10)]
      else String.mk [Nat.digitChar (n / 100), Nat.digitChar (n / 10 % 10),
        Nat.digitChar (n % 10)] := by
  simp only [Nat.repr, Nat.toDigits, List.asString]
  by_cases h1 : n < 10
  · rw [toDigitsCore_step, if_pos (by omega), if_pos h1, Nat.mod_eq_of_lt h1]
  · rw [if_neg h1]
    obtain ⟨m, rfl⟩ : ∃ m, n = m + 2 := ⟨n - 2, by omega⟩
    rw [show m + 2 + 1 = (m + 1) + 1 + 1 from rfl]
    by_cases h2 : m + 2 < 100
    · have d1 : (m + 2) / 10 % 10 = (m + 2) / 10 := by omega
      rw [toDigitsCore_step, if_neg (by omega), toDigitsCore_step, if_pos (by omega), if_pos h2,
        d1]
    · have d1 : (m + 2) / 10 / 10 % 10 = (m + 2) / 100 := by omega
      rw [toDigitsCore_step, if_neg (by omega), toDigitsCore_step, if_neg (by omega),
        toDigitsCore_step, if_pos (by omega), if_neg h2, d1]

/-- An integer below 1000 is printed by Number::toString as its decimal string -/
theorem numberToString_small (n : Nat) (h : n < 1000) :
    numberToString (.finite n 0) = Nat.repr n := by
  by_cases h0 : n = 0
  · subst h0; rfl
  obtain ⟨hlo, hhi⟩ := decadeFuel_spec n n le_rfl h0
  obtain ⟨e, he⟩ : ∃ e, e = decadeFuel n n := ⟨_, rfl⟩
  rw [← he] at hlo hhi
  have he2 : e < 3 := by
    have : 10 ^ e < 10 ^ 3 := by omega
    exact (Nat.pow_lt_pow_iff_right (by norm_num : 1 < 10)).mp this
  have hexp : decimalExponent n (2 ^ 0) = (e : Int) := by
    simp only [decimalExponent, pow_zero, Nat.div_one, he]
    rw [if_pos (by omega)]
  obtain ⟨z, hz, hdvd, hsd⟩ := shortestDecimalFuel_integer n e 17 1
    (lt_trans h (by norm_num)) hlo hhi le_rfl (by omega) (by omega)
  obtain ⟨s, rfl⟩ := hdvd
  have hzpos : 0 < 10 ^ z := by positivity
  have hs : 10 ^ z * s / 10 ^ z = s := Nat.mul_div_cancel_left s hzpos
  simp only [numberToString, if_neg h0, shortestDecimal, hexp, hsd, hs]
  have hc0 : Nat.digitChar 0 = '0' := rfl
  have hs1000 : s < 1000 := by
    have : s * 1 ≤ s * 10 ^ z := Nat.mul_le_mul_left s hzpos
    rw [Nat.mul_comm s (10 ^ z)] at this
    omega
  have r := repr_upto_three_digits s hs1000
  have r' := repr_upto_three_digits (10 ^ z * s) h
  interval_cases e <;> interval_cases z <;>
    simp only [pow_zero, pow_one, Nat.one_mul, Nat.reducePow] at hlo hhi r' ⊢
  · rw [if_pos (by omega)] at r
    simp [r]
  · rw [if_neg (by omega), if_pos (by omega)] at r
    simp [r]
  · rw [if_pos (by omega)] at r
    rw [if_neg (by omega), if_pos (by omega)] at r'
    have d1 : 10 * s / 10 = s := by omega
    have d2 : 10 * s % 10 = 0 := by omega
    rw [d1, d2, hc0] at r'
    simp [r, r']
  · rw [if_neg (by omega), if_neg (by omega)] at r
    simp [r]
  · rw [if_neg (by omega), if_pos (by omega)] at r
    rw [if_neg (by omega), if_neg (by omega)] at r'
    have d1 : 10 * s / 100 = s / 10 := by omega
    have d2 : 10 * s / 10 % 10 = s % 10 := by omega
    have d3 : 10 * s % 10 = 0 := by omega
    rw [d1, d2, d3, hc0] at r'
    simp [r, r']
  · rw [if_pos (by omega)] at r
    rw [if_neg (by omega), if_neg (by omega)] at r'
    have d1 : 100 * s / 100 = s := by omega
    have d2 : 100 * s / 10 % 10 = 0 := by omega
    have d3 : 100 * s % 10 = 0 := by omega
    rw [d1, d2, d3, hc0] at r'
    simp [r, r']
/-- The quotient of an integer below `2 ^ 53` by 1000 or 1000000, printed by `toFixed(1)`:
the tenths are the half-up tenths of the exact quotient unless it lies exactly between two
tenths, and never more than one tenth below them. -/
theorem toFixed1_quotient (n D : Nat) (hD : D = 1000 ∨ D = 1000000) (hle : D ≤ n)
    (hn : n < 2 ^ 53) :
    ∃ t, toFixed1 (roundToDouble n D) = tenthsString t ∧
      (n % (D / 10) ≠ D / 20 → t = halfUpTenths n D) ∧
      (t = halfUpTenths n D ∨ t + 1 = halfUpTenths n D) := by
  have hD2 : 2 ≤ D := by rcases hD with rfl | rfl <;> norm_num
  obtain ⟨s, hs, hround⟩ := roundToDouble_fraction n D hD2 hle hn
  obtain ⟨m, hm⟩ : ∃ m, m = roundHalfEven (n * 2 ^ s) D := ⟨_, rfl⟩
  obtain ⟨b1, b2⟩ := roundHalfEven_bounds (n * 2 ^ s) D (by omega)
  rw [← hm] at b1 b2 hround
  obtain ⟨W, hW⟩ : ∃ W, W = 2 ^ s := ⟨_, rfl⟩
  rw [← hW] at b1 b2 hs
  have hDW : D < 2 * W := by
    have h1 : n * W < 2 ^ 53 * W := Nat.mul_lt_mul_of_pos_right hn (by rw [hW]; positivity)
    have h2 : (2 : Nat) ^ 53 * W = 2 ^ 52 * (2 * W) := by ring
    have h3 : D * 2 ^ 52 < 2 ^ 52 * (2 * W) := by omega
    rw [Nat.mul_comm D] at h3
    exact Nat.lt_of_mul_lt_mul_left h3
  have hlt : m < 10 ^ 21 * 2 ^ s := by
    rw [← hW]
    have h1 : n * W < 2 ^ 53 * W := Nat.mul_lt_mul_of_pos_right hn (by rw [hW]; positivity)
    have h2 : m * 1 ≤ m * D := Nat.mul_le_mul_left m (by omega)
    omega
  obtain ⟨c1, c2⟩ := tenths_of_rounded n m W D hD b1 b2 hDW
  refine ⟨(20 * m + W) / (2 * W), ?_, c1, c2⟩
  rw [hround, toFixed1_normalize m s hlt, hW]
  rfl

/-- The Number of an integer literal below `2 ^ 53` is that integer -/
theorem ofNat_exact (n : Nat) (hn : n < 2 ^ 53) : JSNumber.ofNat n = .finite n 0 :=
  roundToDouble_exact n hn

/-- The three branches of `formatNumber` on an integer below `2 ^ 53` -/
theorem formatNumber_branches (n : Nat) (hn : n < 2 ^ 53) :
    formatNumber (JSNumber.ofNat n) =
      if 1000000 ≤ n then toFixed1 (roundToDouble n 1000000) ++ "M"
      else if 1000 ≤ n then toFixed1 (roundToDouble n 1000) ++ "K"
      else numberToString (.finite n 0) := by
  simp only [formatNumber, ofNat_exact n hn, ofNat_exact 1000000 (by norm_num),
    ofNat_exact 1000 (by norm_num), JSNumber.ge, JSNumber.div, pow_zero, Nat.mul_one,
    decide_eq_true_eq]
  rfl
/-- The values of `formatNumber` that the specification and the tests quote -/
theorem formatNumber_documented_values :
    formatNumber (JSNumber.ofNat 1500000) = "1.5M" ∧
    formatNumber (JSNumber.ofNat 2500000) = "2.5M" ∧
    formatNumber (JSNumber.ofNat 1500) = "1.5K" ∧
    formatNumber (JSNumber.ofNat 2500) = "2.5K" ∧
    formatNumber (JSNumber.ofNat 3000) = "3.0K" ∧
    formatNumber (JSNumber.ofNat 999) = "999" ∧
    formatNumber (JSNumber.ofNat 0) = "0" := by
  decide

/-- C11, as stated, fails on quotients that lie exactly between two tenths: 1150 / 1000
rounded half-up to one decimal digit is 1.2, but `formatNumber(1150)` is `1.1K`, because
`toFixed(1)` rounds the double nearest to 1.15, which is below 1.15; likewise 1450 gives
`1.4K` and 1150000 gives `1.1M`. -/
theorem formatNumber_tie_rounds_down :
    formatNumber (JSNumber.ofNat 1150) = "1.1K" ∧
    halfUpOneDecimal 1150 1000 ++ "K" = "1.2K" ∧
    formatNumber (JSNumber.ofNat 1450) = "1.4K" ∧
    halfUpOneDecimal 1450 1000 ++ "K" = "1.5K" ∧
    formatNumber (JSNumber.ofNat 1150000) = "1.1M" ∧
    halfUpOneDecimal 1150000 1000000 ++ "M" = "1.2M" := by
  decide

/-- C11 (amended): for an integer `n` below `2 ^ 53`, `formatNumber(n)` is the decimal string
of `n` when `n < 1000`; otherwise it is `n / 1000` followed by `K` (below 1000000) or
`n / 1000000` followed by `M`, written with exactly one decimal digit, which is the half-up
rounding of the exact quotient whenever the quotient does not lie exactly between two
tenths (`n % 100 ≠ 50`, respectively `n % 100000 ≠ 50000`), and on such a tie is either
the half-up rounding or one tenth less. -/
theorem formatNumber_rounds_quotient (n : Nat) (hn : n < 2 ^ 53) :
    (n < 1000 → formatNumber (JSNumber.ofNat n) = Nat.repr n) ∧
    (1000 ≤ n → n < 1000000 →
      (n % 100 ≠ 50 → formatNumber (JSNumber.ofNat n) = halfUpOneDecimal n 1000 ++ "K") ∧
      (formatNumber (JSNumber.ofNat n) = halfUpOneDecimal n 1000 ++ "K" ∨
        formatNumber (JSNumber.ofNat n) = tenthsString (halfUpTenths n 1000 - 1) ++ "K")) ∧
    (1000000 ≤ n →
      (n % 100000 ≠ 50000 →
        formatNumber (JSNumber.ofNat n) = halfUpOneDecimal n 1000000 ++ "M") ∧
      (formatNumber (JSNumber.ofNat n) = halfUpOneDecimal n 1000000 ++ "M" ∨
        formatNumber (JSNumber.ofNat n) = tenthsString (halfUpTenths n 1000000 - 1) ++ "M")) := by
  rw [formatNumber_branches n hn]
  refine ⟨fun h => ?_, fun h1 h2 => ?_, fun h1 => ?_⟩
  · rw [if_neg (by omega), if_neg (by omega)]
    exact numberToString_small n h
  · rw [if_neg (by omega), if_pos h1]
    obtain ⟨t, ht, c1, c2⟩ := toFixed1_quotient n 1000 (Or.inl rfl) h1 hn
    rw [ht]
    refine ⟨fun hne => ?_, ?_⟩
    · rw [c1 hne]; rfl
    · rcases c2 with c | c
      · left; rw [c]; rfl
      · right; rw [← c, Nat.add_sub_cancel]
  · rw [if_pos h1]
    obtain ⟨t, ht, c1, c2⟩ := toFixed1_quotient n 1000000 (Or.inr rfl) h1 hn
    rw [ht]
    refine ⟨fun hne => ?_, ?_⟩
    · rw [c1 hne]; rfl
    · rcases c2 with c | c
      · left; rw [c]; rfl
      · right; rw [← c, Nat.add_sub_cancel]

/-- Witness of C11 (amended): 2500 is below `2 ^ 53`, lies between 1000 and 1000000 and is
not a tie, and `formatNumber(2500)` is the half-up rounding of 2.5 followed by `K`. -/
theorem formatNumber_rounds_quotient_witness :
    formatNumber (JSNumber.ofNat 2500) = halfUpOneDecimal 2500 1000 ++ "K" :=
  ((formatNumber_rounds_quotient 2500 (by norm_num)).2.1 (by norm_num) (by norm_num)).1
    (by norm_num)

/-! ## Report writing, the scheduler and the report route (claims C21 to C25) -/

/-- C21 fails in the code: when `fs.writeFileSync` throws an error with message `message`,
`generateTrendingReport` throws that same error, so the caller sees `message`; the label
`生成Markdown报告失败` is only written to the console.  For the error of the repository
test, `Write failed`, the message does not contain the label. -/
theorem write_failure_keeps_its_message (outputDir : String) (projects : List Project)
    (date : DateValue) (summaryAt footerAt message : String) :
    generateTrendingReport outputDir (fun _ _ => .error message) projects date summaryAt
      footerAt = .error message ∧
    generateTrendingReport outputDir (fun _ _ => .error "Write failed") projects date summaryAt
      footerAt = .error "Write failed" ∧
    containsSubstr "生成Markdown报告失败".data "Write failed".data = false :=
  ⟨rfl, rfl, by decide⟩

/-- C22: a call of `generateDailyReport` made while `isRunning` is true resolves without any
call to `getTrendingProjects`, `generateTrendingReport` or `cleanupOldReports` and leaves
`isRunning` true; this is the case of every call made while another one waits for
`getTrendingProjects`. -/
theorem running_call_is_skipped (deps : Collaborators) :
    (generateDailyReport { isRunning := true } deps).calls = [] ∧
    (generateDailyReport { isRunning := true } deps).state = { isRunning := true } ∧
    (generateDailyReport { isRunning := true } deps).result = .ok () ∧
    ∀ s : Scheduler, (stateAtAwait s).isRunning = true ∧
      (generateDailyReport (stateAtAwait s) deps).calls = [] ∧
      (generateDailyReport (stateAtAwait s) deps).state = stateAtAwait s := by
  refine ⟨rfl, rfl, rfl, fun s => ?_⟩
  have h : (stateAtAwait s).isRunning = true := by
    unfold stateAtAwait
    cases hs : s.isRunning <;> simp [hs]
  refine ⟨h, ?_, ?_⟩ <;> simp [generateDailyReport, h]

/-- C23: a call of `generateDailyReport` that starts with `isRunning` false resolves, and
`isRunning` is false afterwards, whatever `getTrendingProjects`, `generateTrendingReport`
and `cleanupOldReports` do: return, or reject or throw. -/
theorem flag_cleared_after_run (deps : Collaborators) :
    (generateDailyReport { isRunning := false } deps).result = .ok () ∧
    (generateDailyReport { isRunning := false } deps).state = { isRunning := false } := by
  constructor
  · simp only [generateDailyReport]
    cases (dailyReportBody deps).2 <;> rfl
  · rfl

/-- C24, as stated, fails for the empty sequence and for a failed save: a fresh service whose
request returns a page without containers resolves to the empty sequence, and the run then
makes no call but `getTrendingProjects`; when `generateTrendingReport` throws,
`cleanupOldReports` is not called. -/
theorem empty_sequence_saves_nothing :
    (getTrendingProjects GitHubService.new 0 (.response noRowPage) 1).result = .ok [] ∧
    (generateDailyReport Scheduler.new (firstRunModules noRowPage)).calls
      = [.getTrendingProjects] ∧
    (generateDailyReport Scheduler.new
      { getTrendingProjects := .ok getMockData
        generateTrendingReport := fun _ => .error "ENOSPC: no space left on device"
        cleanupOldReports := fun _ => .ok () }).calls
      = [.getTrendingProjects, .generateTrendingReport getMockData] := by
  refine ⟨rfl, rfl, rfl⟩

/-- C24 (amended): a call of `generateDailyReport` that starts with `isRunning` false calls
`getTrendingProjects` first; when that resolves to a non-empty sequence it then calls
`generateTrendingReport` with exactly that sequence and, if the report was written,
`cleanupOldReports(7)`, in this order and nothing else; when the sequence is empty, or the
save throws, no further call is made. -/
theorem daily_run_saves_then_prunes (deps : Collaborators) (projects : List Project)
    (hfetch : deps.getTrendingProjects = .ok projects) :
    (projects ≠ [] → ∀ path, deps.generateTrendingReport projects = .ok path →
      (generateDailyReport { isRunning := false } deps).calls
        = [.getTrendingProjects, .generateTrendingReport projects, .cleanupOldReports 7]) ∧
    (projects ≠ [] → ∀ e, deps.generateTrendingReport projects = .error e →
      (generateDailyReport { isRunning := false } deps).calls
        = [.getTrendingProjects, .generateTrendingReport projects]) ∧
    (projects = [] →
      (generateDailyReport { isRunning := false } deps).calls = [.getTrendingProjects]) := by
  refine ⟨fun hne path hsave => ?_, fun hne e hsave => ?_, fun hnil => ?_⟩
  · have hlen : projects.length > 0 := List.length_pos.mpr hne
    simp only [generateDailyReport, dailyReportBody, hfetch, hsave, if_pos hlen]
    cases deps.cleanupOldReports 7 <;> rfl
  · have hlen : projects.length > 0 := List.length_pos.mpr hne
    simp [generateDailyReport, dailyReportBody, hfetch, hsave, hlen]
  · subst hnil
    simp [generateDailyReport, dailyReportBody, hfetch]

/-- Witness of C24 (amended): the first run of the day on the one-container test page saves
a report for the parsed record and then prunes. -/
theorem daily_run_saves_then_prunes_witness :
    (generateDailyReport { isRunning := false } (firstRunModules testPage)).calls
      = [.getTrendingProjects, .generateTrendingReport (parseTrendingProjects testPage),
         .cleanupOldReports 7] :=
  (daily_run_saves_then_prunes (firstRunModules testPage) (parseTrendingProjects testPage)
    rfl).1 (by decide) _ rfl

/-- C25: `readReport` joins the file name to the report directory and reads whatever the
result names: for the directory `/app/reports` the name `../.env` resolves to `/app/.env`,
which is not inside the directory, and when that file exists its content is returned; the
route handler hands its `fileName` parameter to `readReport` as it is and sends the content
with status 200. -/
theorem readReport_follows_parent_segments (fs : ReportFiles) (content : String)
    (hexists : fs.existsSync "/app/.env" = true)
    (hread : fs.readFileSync "/app/.env" = .ok content) :
    pathJoin "/app/reports" "../.env" = "/app/.env" ∧
    insideDirectory "/app/reports" (pathJoin "/app/reports" "../.env") = false ∧
    readReport "/app/reports" fs "../.env" = .ok content ∧
    reportHandler "/app/reports" fs "../.env" = .send 200 content := by
  have hjoin : pathJoin "/app/reports" "../.env" = "/app/.env" := by decide
  have hr : readReport "/app/reports" fs "../.env" = .ok content := by
    simp only [readReport, hjoin, hexists, hread]
    rfl
  refine ⟨hjoin, by decide, hr, ?_⟩
  simp only [reportHandler, hr]

/-- Witness of C25: with only `/app/.env` next to the report directory, the route answers
the name `../.env` with the content of that file. -/
theorem readReport_follows_parent_segments_witness :
    reportHandler "/app/reports" envFiles "../.env" = .send 200 "PORT=3000" :=
  (readReport_follows_parent_segments envFiles "PORT=3000" (by decide) rfl).2.2.2

/-! ## Freshness and the printed thousands (claims C26 and C27) -/

/-- In a reachable state the two fields of the slot are set together -/
theorem reachable_slot (s : GitHubService) (h : Reachable s) :
    s.cache.isSome ↔ s.lastFetch.isSome := by
  induction h with
  | init => simp [GitHubService.new]
  | getTrendingProjects s now fetch later _ ih =>
    rcases getTrendingProjects_state s now later fetch with h | ⟨p, h⟩
    · rw [h]; exact ih
    · rw [h]; simp
  | clearCache s _ _ => simp [clearCache]
  | getCacheStatus s n₁ n₂ _ ih => exact ih

/-- A call makes no request exactly when the guard serves the cache -/
theorem requests_zero_iff (s : GitHubService) (now later : Int) (fetch : FetchOutcome) :
    (getTrendingProjects s now fetch later).requests = 0 ↔ (cacheLookup s now).isSome := by
  unfold getTrendingProjects
  cases hl : cacheLookup s now with
  | some c => simp
  | none =>
    cases fetch with
    | response data => simp [axiosGet]
    | failure m => cases hc : s.cache <;> simp [axiosGet, hc]

/-- C26 fails in the code at the boundary: in every reachable state, at clock reading `now`,
`getCacheStatus().isExpired` is false exactly when `getTrendingProjects` would make no
request or `now - lastFetch` equals `cacheTimeout` (with `lastFetch` non-zero); at that
boundary `isExpired` is false (the test is `>`) while `getTrendingProjects` makes a request
(the guard is `<`). -/
theorem freshness_differs_at_boundary (s : GitHubService) (h : Reachable s) (now later : Int)
    (fetch : FetchOutcome) :
    ((getCacheStatus s now now).1.isExpired = false ↔
      ((getTrendingProjects s now fetch later).requests = 0 ∨
        ∃ t, s.lastFetch = some t ∧ t ≠ 0 ∧ now - t = cacheTimeout)) ∧
    (∀ t, s.lastFetch = some t → t ≠ 0 → now - t = cacheTimeout →
      (getCacheStatus s now now).1.isExpired = false ∧
      (getTrendingProjects s now fetch later).requests = 1) := by
  have hinv := reachable_slot s h
  have hreq := requests_zero_iff s now later fetch
  obtain ⟨cache, lastFetch⟩ := s
  cases lastFetch with
  | none =>
    have hc : cache = none := by
      cases cache with
      | none => rfl
      | some c => simp at hinv
    subst hc
    refine ⟨?_, fun t ht => by simp at ht⟩
    rw [hreq]
    simp [getCacheStatus, cacheLookup]
  | some t =>
    obtain ⟨c, rfl⟩ : ∃ c, cache = some c := by
      cases cache with
      | none => simp at hinv
      | some c => exact ⟨c, rfl⟩
    have hone : ∀ r : CallResult, r.requests = 0 ∨ r.requests = 1 →
        ¬ r.requests = 0 → r.requests = 1 := fun r h1 h2 => h1.resolve_left h2
    have hcount : (getTrendingProjects { cache := some c, lastFetch := some t } now fetch
        later).requests = 0 ∨ (getTrendingProjects { cache := some c, lastFetch := some t } now
        fetch later).requests = 1 := by
      unfold getTrendingProjects
      cases cacheLookup { cache := some c, lastFetch := some t } now with
      | some c => exact Or.inl rfl
      | none =>
        cases fetch with
        | response data => exact Or.inr rfl
        | failure m => exact Or.inr rfl
    by_cases ht : t = 0
    · subst ht
      refine ⟨?_, fun t' ht' hne => by simp at ht'; omega⟩
      rw [hreq]
      simp [getCacheStatus, cacheLookup, truthyTime]
    · refine ⟨?_, fun t' ht' hne hb => ?_⟩
      · rw [hreq]
        simp only [getCacheStatus, cacheLookup, truthyTime, ht, bne_iff_ne, ne_eq,
          not_false_eq_true, if_true, Bool.true_and, decide_eq_false_iff_not,
          decide_eq_true_eq, Option.some.injEq, exists_eq_left']
        by_cases hlt : now - t < cacheTimeout
        · simp [hlt]; omega
        · simp [hlt]; omega
      · simp only [Option.some.injEq] at ht'
        subst ht'
        have hnot : ¬ (getTrendingProjects { cache := some c, lastFetch := some t } now fetch
            later).requests = 0 := by
          rw [hreq]
          simp [cacheLookup, truthyTime, hb]
        refine ⟨?_, hone _ hcount hnot⟩
        simp [getCacheStatus, truthyTime, ht, hb]

/-- Witness of C26: one hour to the millisecond after a fetch stored at reading 5, the
status says not expired and the call makes a request. -/
theorem freshness_differs_at_boundary_witness :
    (getCacheStatus (getTrendingProjects GitHubService.new 0 (.response testPage) 5).state
      3600005 3600005).1.isExpired = false ∧
    (getTrendingProjects (getTrendingProjects GitHubService.new 0 (.response testPage) 5).state
      3600005 (.response testPage) 3600006).requests = 1 :=
  (freshness_differs_at_boundary _
    (Reachable.getTrendingProjects GitHubService.new 0 (.response testPage) 5 Reachable.init)
    3600005 3600006 (.response testPage)).2 5 rfl (by decide) (by decide)

/-- C27, as stated, fails just below one million: 999950 / 1000 is printed as `1000.0`, four
digits before the point, and so is every quotient up to 999999 / 1000. -/
theorem thousands_reach_four_digits :
    formatNumber (JSNumber.ofNat 999950) = "1000.0K" ∧
    formatNumber (JSNumber.ofNat 999999) = "1000.0K" ∧
    formatNumber (JSNumber.ofNat 999949) = "999.9K" := by
  decide

/-- C27 (amended): for an integer `n` with `1000 ≤ n < 999950`, `formatNumber(n)` is `t`
tenths followed by `K` with `10 ≤ t < 10000`, that is a number from 1.0 to 999.9 with at
most three digits before the point; for `999950 ≤ n < 1000000` it is `1000.0K`.  The
function of the same name in `public/js/app.js` has the same body. -/
theorem formatNumber_thousands_range (n : Nat) (h1 : 1000 ≤ n) (h2 : n < 1000000) :
    (n < 999950 → ∃ t, 10 ≤ t ∧ t < 10000 ∧ t / 10 < 1000 ∧
      formatNumber (JSNumber.ofNat n) = tenthsString t ++ "K") ∧
    (999950 ≤ n → formatNumber (JSNumber.ofNat n) = "1000.0K") := by
  have hn : n < 2 ^ 53 := lt_trans h2 (by norm_num)
  obtain ⟨t, ht, c1, c2⟩ := toFixed1_quotient n 1000 (Or.inl rfl) h1 hn
  have hfmt : formatNumber (JSNumber.ofNat n) = tenthsString t ++ "K" := by
    rw [formatNumber_branches n hn, if_neg (by omega), if_pos h1, ht]
  simp only [halfUpTenths] at c1 c2
  refine ⟨fun hlt => ⟨t, ?_, ?_, ?_, hfmt⟩, fun hge => ?_⟩
  · by_cases htie : n % (1000 / 10) = 1000 / 20
    · omega
    · have := c1 htie
      omega
  · omega
  · omega
  · rcases Nat.eq_or_lt_of_le hge with heq | hgt
    · subst heq
      decide
    · have htie : n % (1000 / 10) ≠ 1000 / 20 := by omega
      have h10 : t = 10000 := by
        have := c1 htie
        omega
      rw [hfmt, h10]
      decide

/-- Witness of C27 (amended): 2500 lies between 1000 and 999950 and is printed as 25 tenths
followed by `K`. -/
theorem formatNumber_thousands_range_witness :
    ∃ t, 10 ≤ t ∧ t < 10000 ∧ t / 10 < 1000 ∧
      formatNumber (JSNumber.ofNat 2500) = tenthsString t ++ "K" :=
  (formatNumber_thousands_range 2500 (by norm_num) (by norm_num)).1 (by norm_num)

end GithubTrending
